import Mathlib

set_option linter.unusedVariables false

/-!
Shallow embedding of the 3D math / mesh-editing toolkit (Rust sources
`math_lib/src/aabb3.rs`, `math_lib/src/vector.rs`,
`math_lib_3d/src/vector3.rs`, `math_lib_3d/src/edit_tri_mesh.rs`).

Scalar values (f32 in the source) are modelled as exact rationals: the
operations verified here perform only comparisons, copies, additions,
subtractions, multiplications and divisions on concrete inputs, which the
rational model reproduces exactly.  `Vector3::normalize`, which calls
`sqrt`, is modelled separately over the reals.
-/

namespace Rockfish

/-! ## Vectors (`math_lib/src/vector.rs` `Vec3`) -/

/-- `Vec3` of `math_lib/src/vector.rs`: three scalar components. -/
structure Vec3 where
  x : ℚ
  y : ℚ
  z : ℚ
deriving DecidableEq, Repr

/-- `distance_squared` of `math_lib` (the version used by `aabb3.rs` via
`intersects_sphere`): component deltas, summed squares. -/
def distance_squared (a b : Vec3) : ℚ :=
  let dx := a.x - b.x
  let dy := a.y - b.y
  let dz := a.z - b.z
  dx * dx + dy * dy + dz * dz

/-! ## AABB3 (`math_lib/src/aabb3.rs`) -/

/-- Axis-aligned box: `min`/`max` corner vectors. -/
structure AABB3 where
  min : Vec3
  max : Vec3
deriving DecidableEq, Repr

/-- `f32::MAX`, the `k_big_number` sentinel of `aabb3.rs`, exactly:
`(2^24 - 1) * 2^104`. -/
def kBigNumber : ℚ := 340282346638528859811704183484516925440

/-- `AABB3::empty`: set `min` components to `f32::MAX` and `max`
components to `-f32::MAX`.  The Rust method mutates in place; the model
returns the resulting box. -/
def AABB3.emptyBox : AABB3 :=
  { min := ⟨kBigNumber, kBigNumber, kBigNumber⟩
    max := ⟨-kBigNumber, -kBigNumber, -kBigNumber⟩ }

/-- `AABB3::add_point`, translated statement by statement.  The source
compares `p.y`/`p.z` against `self.min.x`/`self.max.x` (not the y/z
bounds), and each comparison sees the effect of the previous assignments;
the sequential `let`s reproduce that exactly. -/
def AABB3.add_point (b : AABB3) (p : Vec3) : AABB3 :=
  let b := if p.x < b.min.x then { b with min := { b.min with x := p.x } } else b
  let b := if p.x > b.max.x then { b with max := { b.max with x := p.x } } else b
  let b := if p.y < b.min.x then { b with min := { b.min with y := p.y } } else b
  let b := if p.y > b.max.x then { b with max := { b.max with y := p.y } } else b
  let b := if p.z < b.min.x then { b with min := { b.min with z := p.z } } else b
  let b := if p.z > b.max.x then { b with max := { b.max with z := p.z } } else b
  b

/-- `AABB3::is_empty`: inverted on any axis. -/
def AABB3.is_empty (b : AABB3) : Bool :=
  decide (b.min.x > b.max.x) || decide (b.min.y > b.max.y) || decide (b.min.z > b.max.z)

/-- `AABB3::closest_point_to`: clamp each coordinate of `p` into
`[min, max]` independently. -/
def AABB3.closest_point_to (b : AABB3) (p : Vec3) : Vec3 :=
  { x := if p.x < b.min.x then b.min.x else if p.x > b.max.x then b.max.x else p.x
    y := if p.y < b.min.y then b.min.y else if p.y > b.max.y then b.max.y else p.y
    z := if p.z < b.min.z then b.min.z else if p.z > b.max.z then b.max.z else p.z }

/-- `AABB3::intersects_sphere`: squared distance from the center to the
closest point, strictly less than `radius * radius`. -/
def AABB3.intersects_sphere (b : AABB3) (center : Vec3) (radius : ℚ) : Bool :=
  let closest_point := b.closest_point_to center
  decide (distance_squared center closest_point < radius * radius)

/-- One axis of `AABB3::intersect_moving_aabb`.  Returns `none` where the
source does an early `return k_no_intersection`, otherwise the updated
`(t_enter, t_leave)` interval. -/
def axisSlab (sMin sMax mMin mMax dc tEnter tLeave : ℚ) : Option (ℚ × ℚ) :=
  if dc = 0 then
    if sMin ≥ mMax ∨ sMax ≤ mMin then none
    else some (tEnter, tLeave)
  else
    let oneOverD := 1 / dc
    let aEnter := (sMin - mMax) * oneOverD
    let aLeave := (sMax - mMin) * oneOverD
    let s := if aEnter > aLeave then (aLeave, aEnter) else (aEnter, aLeave)
    let tEnter1 := if s.1 > tEnter then s.1 else tEnter
    let tLeave1 := if s.2 < tLeave then s.2 else tLeave
    if tEnter1 > tLeave1 then none else some (tEnter1, tLeave1)

/-- `AABB3::intersect_moving_aabb`: slab test across the three axes over
time in `[0, 1]`; `k_big_number` on any empty interval, else the final
`t_enter`. -/
def intersect_moving_aabb (stationaryBox movingBox : AABB3) (d : Vec3) : ℚ :=
  match axisSlab stationaryBox.min.x stationaryBox.max.x
      movingBox.min.x movingBox.max.x d.x 0 1 with
  | none => kBigNumber
  | some (te, tl) =>
    match axisSlab stationaryBox.min.y stationaryBox.max.y
        movingBox.min.y movingBox.max.y d.y te tl with
    | none => kBigNumber
    | some (te, tl) =>
      match axisSlab stationaryBox.min.z stationaryBox.max.z
          movingBox.min.z movingBox.max.z d.z te tl with
      | none => kBigNumber
      | some (te, _) => te

/-! ## Mesh data model (`math_lib_3d/src/edit_tri_mesh.rs`) -/

/-- `Vector3` of `math_lib_3d/src/vector3.rs` as used for positions and
normals inside the mesh. -/
structure Vector3 where
  x : ℚ
  y : ℚ
  z : ℚ
deriving DecidableEq, Repr

/-- Mesh vertex: position, vertex-level UV, normal, scratch mark. -/
structure Vertex where
  p : Vector3
  u : ℚ
  v : ℚ
  normal : Vector3
  mark : Int
deriving DecidableEq, Repr

/-- `Vertex::default`: position and normal are `Vector3::identity()`,
i.e. `(1, 1, 1)`; UVs and mark zero. -/
def Vertex.default : Vertex :=
  { p := ⟨1, 1, 1⟩, u := 0, v := 0, normal := ⟨1, 1, 1⟩, mark := 0 }

/-- Face vertex `Vert`: index into the vertex list plus per-face UV. -/
structure Vert where
  index : Nat
  u : ℚ
  v : ℚ
deriving DecidableEq, Repr

/-- Triangle `Tri`: three face vertices, face normal, part index,
material index, scratch mark. -/
structure Tri where
  v0 : Vert
  v1 : Vert
  v2 : Vert
  normal : Vector3
  part : Nat
  material : Nat
  mark : Int
deriving DecidableEq, Repr

/-- Mesh material: texture name and scratch mark. -/
structure Material where
  diffuseTextureName : String
  mark : Int
deriving DecidableEq, Repr

/-- `Material::default`. -/
def Material.default : Material :=
  { diffuseTextureName := "", mark := 0 }

/-- Mesh part: name and scratch mark. -/
structure Part where
  name : String
  mark : Int
deriving DecidableEq, Repr

/-- `Part::default`. -/
def Part.default : Part :=
  { name := "", mark := 0 }

/-- `EditTriMesh`: the four ordered, index-addressed collections. -/
structure EditTriMesh where
  vList : List Vertex
  tList : List Tri
  mList : List Material
  pList : List Part
deriving DecidableEq, Repr

/-- The empty mesh (`EditTriMesh::default` / `empty`). -/
def EditTriMesh.emptyMesh : EditTriMesh :=
  { vList := [], tList := [], mList := [], pList := [] }

/-- `EditTriMesh::deleteMarkedTris`: `extract_if` removes the triangles
whose mark equals the argument, keeping the rest in order. -/
def deleteMarkedTris (m : EditTriMesh) (mark : Int) : EditTriMesh :=
  { m with tList := m.tList.filter (fun t => t.mark ≠ mark) }

/-- Index fixup of one face vertex after deleting vertex `vi`: indices
past the deleted slot are decremented. -/
def shiftVert (vi : Nat) (w : Vert) : Vert :=
  if w.index > vi then { w with index := w.index - 1 } else w

/-- The per-triangle loop body of `EditTriMesh::deleteVertex`: corners
are visited in order; a corner equal to the deleted index marks the
triangle and `break`s out (skipping the remaining corners), otherwise a
corner past the deleted index is decremented. -/
def fixupTriDeletedVertex (vi : Nat) (t : Tri) : Tri :=
  if t.v0.index = vi then { t with mark := 1 }
  else
    let t1 := { t with v0 := shiftVert vi t.v0 }
    if t1.v1.index = vi then { t1 with mark := 1 }
    else
      let t2 := { t1 with v1 := shiftVert vi t1.v1 }
      if t2.v2.index = vi then { t2 with mark := 1 }
      else { t2 with v2 := shiftVert vi t2.v2 }

/-- `EditTriMesh::deleteVertex`: bounds check (out of range is a no-op in
release builds), triangle fixup, removal of the vertex, then
`deleteMarkedTris(1)`. -/
def EditTriMesh.deleteVertex (m : EditTriMesh) (vertexIndex : Nat) : EditTriMesh :=
  if vertexIndex ≥ m.vList.length then m
  else
    let m1 := { m with tList := m.tList.map (fixupTriDeletedVertex vertexIndex) }
    let m2 := { m1 with vList := m1.vList.eraseIdx vertexIndex }
    deleteMarkedTris m2 1

/-- `EditTriMesh::deleteTri`, faithful to the source: the bounds check
compares `triIndex` against the length of the *vertex* list `vList`, and
an index failing that check is a no-op in release builds. -/
def EditTriMesh.deleteTri (m : EditTriMesh) (triIndex : Int) : EditTriMesh :=
  if triIndex < 0 ∨ triIndex ≥ (m.vList.length : Int) then m
  else { m with tList := m.tList.eraseIdx triIndex.toNat }

/-- `EditTriMesh::deletePart`, faithful to the source: the bounds check
compares `partIndex` against the *vertex* list length, and the fixup
branch decrements `tri.material` (not `tri.part`) when it exceeds the
deleted part index. -/
def EditTriMesh.deletePart (m : EditTriMesh) (partIndex : Nat) : EditTriMesh :=
  if partIndex ≥ m.vList.length then m
  else
    let fixTri := fun (t : Tri) =>
      if t.part = partIndex then { t with mark := 1 }
      else
        let t1 := { t with mark := 0 }
        if t1.material > partIndex then { t1 with material := t1.material - 1 } else t1
    let m1 := { m with tList := m.tList.map fixTri }
    let m2 := { m1 with pList := m1.pList.eraseIdx partIndex }
    deleteMarkedTris m2 1

/-! ### `deleteUnusedMaterials` -/

/-- `self.mList[i].mark = 1`: set the mark of the material at index `i`
to 1 (an out-of-range index leaves the list unchanged; the Rust indexing
would panic there, which the theorems exclude by hypothesis). -/
def setMaterialMarkUsed : List Material → Nat → List Material
  | [], _ => []
  | mat :: rest, 0 => { mat with mark := 1 } :: rest
  | mat :: rest, i + 1 => mat :: setMaterialMarkUsed rest i

/-- The scan loop of `deleteUnusedMaterials`: for each triangle, mark its
material as used. -/
def scanTrisMarkMaterials (ml : List Material) : List Tri → List Material
  | [] => ml
  | t :: rest => scanTrisMarkMaterials (setMaterialMarkUsed ml t.material) rest

/-- The renumbering loop of `deleteUnusedMaterials`: an unused material
(mark 0) gets the sentinel -1, a used one gets the next compacted index,
counting from `c`. -/
def assignMaterialMarks : List Material → Nat → List Material
  | [], _ => []
  | mat :: rest, c =>
    if mat.mark = 0 then { mat with mark := -1 } :: assignMaterialMarks rest c
    else { mat with mark := (c : Int) } :: assignMaterialMarks rest (c + 1)

/-- `EditTriMesh::deleteUnusedMaterials`: mark all materials unused, scan
triangles to flag used ones, assign compacted indices into the marks,
return early (with the mutated marks) if nothing is unused, else remap
each triangle's material through the marks and `extract_if` the
sentinel-marked materials. -/
def EditTriMesh.deleteUnusedMaterials (m : EditTriMesh) : EditTriMesh :=
  let ml0 := m.mList.map (fun mat => { mat with mark := 0 })
  let ml1 := scanTrisMarkMaterials ml0 m.tList
  let newMaterialCount := ml1.countP (fun mat => mat.mark ≠ 0)
  let ml2 := assignMaterialMarks ml1 0
  if newMaterialCount = m.mList.length then { m with mList := ml2 }
  else
    let tl := m.tList.map (fun t =>
      { t with material := ((ml2.getD t.material Material.default).mark).toNat })
    { m with tList := tl, mList := ml2.filter (fun mat => mat.mark ≠ -1) }

/-! ### `detachAllFaces` -/

/-- The copy made for one face corner by `detachAllFaces`: position,
normal and UV of the referenced source vertex on top of
`Vertex::default()` (so the mark is 0). -/
def detachCopyVertex (vl : List Vertex) (w : Vert) : Vertex :=
  let old := vl.getD w.index Vertex.default
  { p := old.p, u := old.u, v := old.v, normal := old.normal, mark := 0 }

/-- The new vertex list built by `detachAllFaces`: slot `3*i + j` is
written exactly once, with the copy for corner `j` of triangle `i`, so
the filled array is the concatenation of the per-triangle copies. -/
def detachVerts (vl : List Vertex) : List Tri → List Vertex
  | [] => []
  | t :: rest =>
    detachCopyVertex vl t.v0 :: detachCopyVertex vl t.v1 :: detachCopyVertex vl t.v2 ::
      detachVerts vl rest

/-- The triangle remapping of `detachAllFaces`: corner `j` of triangle
`i` is pointed at new vertex `3*i + j`. -/
def detachTris : Nat → List Tri → List Tri
  | _, [] => []
  | i, t :: rest =>
    { t with v0 := { t.v0 with index := 3 * i }
             v1 := { t.v1 with index := 3 * i + 1 }
             v2 := { t.v2 with index := 3 * i + 2 } } :: detachTris (i + 1) rest

/-- `EditTriMesh::detachAllFaces`: bail out unchanged when there are no
faces, otherwise install the detached vertex list and remapped
triangles. -/
def EditTriMesh.detachAllFaces (m : EditTriMesh) : EditTriMesh :=
  if m.tList.isEmpty then m
  else { m with vList := detachVerts m.vList m.tList, tList := detachTris 0 m.tList }

/-! ### `extractParts`

Modelled from the spec: the body of `EditTriMesh::extractParts` in
`edit_tri_mesh.rs` is commented out (an empty stub), so the operation is
modelled from the specification's description: mark all vertices and
materials with the sentinel -1; for each source triangle of the requested
part, copy its material and its three vertices into the destination on
first reference, recording the new index in the source entity's mark so
later references reuse the mapping; append the triangle with part 0 and
the remapped indices; the destination mesh carries exactly the one
source part. -/

/-- Extraction state: the source vertex and material lists whose marks
are being used as the first-reference memo, plus the destination mesh. -/
structure ExtractState where
  vSrc : List Vertex
  mSrc : List Material
  dest : EditTriMesh
deriving Repr

/-- Modelled from the spec (`extractParts` remapping of one material
reference): on first reference the material (mark still -1) is appended
to the destination and its new index recorded in the source mark. -/
def remapMaterial (st : ExtractState) (mi : Nat) : ExtractState × Nat :=
  let mat := st.mSrc.getD mi Material.default
  if mat.mark < 0 then
    let ni := st.dest.mList.length
    ({ st with
        mSrc := st.mSrc.set mi { mat with mark := (ni : Int) }
        dest := { st.dest with mList := st.dest.mList ++ [mat] } },
      ni)
  else (st, mat.mark.toNat)

/-- Modelled from the spec (`extractParts` remapping of one face
corner): on first reference the vertex (mark still -1) is appended to
the destination and its new index recorded in the source mark. -/
def remapCorner (st : ExtractState) (w : Vert) : ExtractState × Vert :=
  let v := st.vSrc.getD w.index Vertex.default
  if v.mark < 0 then
    let ni := st.dest.vList.length
    ({ st with
        vSrc := st.vSrc.set w.index { v with mark := (ni : Int) }
        dest := { st.dest with vList := st.dest.vList ++ [v] } },
      { w with index := ni })
  else (st, { w with index := v.mark.toNat })

/-- Modelled from the spec (`extractParts` triangle scan body): skip
triangles of other parts; remap the material, then the three corners,
then append the triangle with part slammed to 0. -/
def extractTriStep (partIndex : Nat) (st : ExtractState) (t : Tri) : ExtractState :=
  if t.part ≠ partIndex then st
  else
    let p1 := remapMaterial st t.material
    let p2 := remapCorner p1.1 t.v0
    let p3 := remapCorner p2.1 t.v1
    let p4 := remapCorner p3.1 t.v2
    let t1 := { t with material := p1.2, v0 := p2.2, v1 := p3.2, v2 := p4.2, part := 0 }
    { p4.1 with dest := { p4.1.dest with tList := p4.1.dest.tList ++ [t1] } }

/-- Modelled from the spec: the triangle scan of `extractParts` for one
part. -/
def extractFold (partIndex : Nat) (st : ExtractState) : List Tri → ExtractState
  | [] => st
  | t :: rest => extractFold partIndex (extractTriStep partIndex st t) rest

/-- Modelled from the spec: extraction of a single part - fresh sentinel
marks, a destination holding exactly the one source part, then the
triangle scan. -/
def EditTriMesh.extractOnePart (m : EditTriMesh) (partIndex : Nat) : EditTriMesh :=
  let st0 : ExtractState :=
    { vSrc := m.vList.map (fun v => { v with mark := -1 })
      mSrc := m.mList.map (fun mat => { mat with mark := -1 })
      dest := { vList := [], tList := [], mList := []
                pList := [m.pList.getD partIndex Part.default] } }
  (extractFold partIndex st0 m.tList).dest

/-- Modelled from the spec: `extractParts` fills the output with one
extracted mesh per source part. -/
def EditTriMesh.extractParts (m : EditTriMesh) : List EditTriMesh :=
  (List.range m.pList.length).map m.extractOnePart

/-! ## `Vector3::normalize` (`math_lib_3d/src/vector3.rs`) over ℝ

The source works on `f32` and calls `sqrt`; the model uses real
arithmetic, which is the intended semantics of the guard being
verified. -/

/-- `Vector3` with real components, for the normalization claim. -/
structure Vector3R where
  x : ℝ
  y : ℝ
  z : ℝ

/-- `Vector3::normalize`: squared magnitude, guarded division by its
square root. -/
noncomputable def Vector3R.normalize (v : Vector3R) : Vector3R :=
  let mag_sq := v.x * v.x + v.y * v.y + v.z * v.z
  if mag_sq > 0 then
    let one_over_mag := 1 / Real.sqrt mag_sq
    { x := v.x * one_over_mag, y := v.y * one_over_mag, z := v.z * one_over_mag }
  else v

/-- `Vector3::magnitude`. -/
noncomputable def Vector3R.magnitude (v : Vector3R) : ℝ :=
  Real.sqrt (v.x * v.x + v.y * v.y + v.z * v.z)

/-! ## Auxiliary predicates and concrete sample meshes used by the
verification -/

/-- `Tri::default`. -/
def Tri.default : Tri :=
  { v0 := ⟨0, 0, 0⟩, v1 := ⟨0, 0, 0⟩, v2 := ⟨0, 0, 0⟩, normal := ⟨1, 1, 1⟩
    part := 0, material := 0, mark := 0 }

/-- All three corner indices of a triangle decremented past the deleted
vertex slot (the net index effect of `deleteVertex` on a surviving
triangle). -/
def shiftTriIndices (vi : Nat) (t : Tri) : Tri :=
  { t with v0 := shiftVert vi t.v0, v1 := shiftVert vi t.v1, v2 := shiftVert vi t.v2 }

/-- Two vertices agree on all persistent data (position, UV, normal);
the scratch mark is excluded. -/
def VertexDataEq (a b : Vertex) : Prop :=
  a.p = b.p ∧ a.u = b.u ∧ a.v = b.v ∧ a.normal = b.normal

/-- How an extracted triangle `t1` of a destination mesh `d` corresponds
to its source triangle `t` of mesh `m`: part slammed to 0, normal, mark
and per-face UVs preserved, the material index valid in `d` and naming
the same texture, and each corner index valid in `d` and referencing a
copy of the source corner's vertex. -/
def TriMatch (m d : EditTriMesh) (t t1 : Tri) : Prop :=
  t1.part = 0 ∧ t1.normal = t.normal ∧ t1.mark = t.mark ∧
  t1.v0.u = t.v0.u ∧ t1.v0.v = t.v0.v ∧
  t1.v1.u = t.v1.u ∧ t1.v1.v = t.v1.v ∧
  t1.v2.u = t.v2.u ∧ t1.v2.v = t.v2.v ∧
  t1.material < d.mList.length ∧
  (d.mList.getD t1.material Material.default).diffuseTextureName =
    (m.mList.getD t.material Material.default).diffuseTextureName ∧
  t1.v0.index < d.vList.length ∧
  VertexDataEq (d.vList.getD t1.v0.index Vertex.default)
    (m.vList.getD t.v0.index Vertex.default) ∧
  t1.v1.index < d.vList.length ∧
  VertexDataEq (d.vList.getD t1.v1.index Vertex.default)
    (m.vList.getD t.v1.index Vertex.default) ∧
  t1.v2.index < d.vList.length ∧
  VertexDataEq (d.vList.getD t1.v2.index Vertex.default)
    (m.vList.getD t.v2.index Vertex.default)

/-- Core invariant of the extraction scan (everything except the
triangle correspondence and the reference-coverage of the destination
lists): source lists keep their lengths and data, and every
already-assigned mark points at a faithful copy in the destination. -/
structure ExtractCore (m : EditTriMesh) (k : Nat) (st : ExtractState) : Prop where
  hvlen : st.vSrc.length = m.vList.length
  hmlen : st.mSrc.length = m.mList.length
  hvdata : ∀ i, i < m.vList.length →
    VertexDataEq (st.vSrc.getD i Vertex.default) (m.vList.getD i Vertex.default)
  hmdata : ∀ i, i < m.mList.length →
    (st.mSrc.getD i Material.default).diffuseTextureName =
      (m.mList.getD i Material.default).diffuseTextureName
  hvmark : ∀ i, i < m.vList.length → 0 ≤ (st.vSrc.getD i Vertex.default).mark →
    (st.vSrc.getD i Vertex.default).mark.toNat < st.dest.vList.length ∧
    VertexDataEq
      (st.dest.vList.getD (st.vSrc.getD i Vertex.default).mark.toNat Vertex.default)
      (m.vList.getD i Vertex.default)
  hmmark : ∀ i, i < m.mList.length → 0 ≤ (st.mSrc.getD i Material.default).mark →
    (st.mSrc.getD i Material.default).mark.toNat < st.dest.mList.length ∧
    (st.dest.mList.getD (st.mSrc.getD i Material.default).mark.toNat
        Material.default).diffuseTextureName =
      (m.mList.getD i Material.default).diffuseTextureName
  hpl : st.dest.pList = [m.pList.getD k Part.default]

/-- Full invariant of the extraction scan after processing a prefix of
the triangle list. -/
structure ExtractInv (m : EditTriMesh) (k : Nat) (processed : List Tri)
    (st : ExtractState) : Prop where
  core : ExtractCore m k st
  htris : List.Forall₂ (TriMatch m st.dest)
    (processed.filter (fun t => t.part = k)) st.dest.tList
  hvref : ∀ i, i < st.dest.vList.length →
    ∃ t1 ∈ st.dest.tList, t1.v0.index = i ∨ t1.v1.index = i ∨ t1.v2.index = i
  hmref : ∀ j, j < st.dest.mList.length → ∃ t1 ∈ st.dest.tList, t1.material = j

/-- Sample vertex with all coordinates `q`. -/
def sampleVertex (q : ℚ) : Vertex :=
  { p := ⟨q, q, q⟩, u := 0, v := 0, normal := ⟨0, 0, 0⟩, mark := 0 }

/-- Sample face corner referencing vertex `i`. -/
def sampleCorner (i : Nat) : Vert := { index := i, u := 0, v := 0 }

/-- Sample triangle with the given corner indices, part and material. -/
def sampleTri (a b c pa ma : Nat) : Tri :=
  { v0 := sampleCorner a, v1 := sampleCorner b, v2 := sampleCorner c
    normal := ⟨0, 0, 0⟩, part := pa, material := ma, mark := 0 }

/-- Sample mesh for the `deleteVertex` witness: four vertices, two
triangles touching vertex 1 and one not. -/
def meshDelV : EditTriMesh :=
  { vList := [sampleVertex 0, sampleVertex 1, sampleVertex 2, sampleVertex 3]
    tList := [sampleTri 0 1 2 0 0, sampleTri 1 2 3 0 0, sampleTri 3 3 3 0 0]
    mList := [Material.default]
    pList := [Part.default] }

/-- Failing input for `deletePart`: one vertex (so the misdirected bounds
check passes), two parts, two materials, and a triangle in part 1 with
material 1. -/
def meshDelP : EditTriMesh :=
  { vList := [sampleVertex 0]
    tList := [sampleTri 0 0 0 1 1]
    mList := [Material.default, { diffuseTextureName := "b", mark := 0 }]
    pList := [Part.default, { name := "p1", mark := 0 }] }

/-- Failing input for `deleteTri`: a mesh with one triangle but no
vertices, so the (misdirected) bounds check rejects the valid triangle
index 0. -/
def meshDelT : EditTriMesh :=
  { vList := [], tList := [sampleTri 0 0 0 0 0], mList := [], pList := [] }

/-- Mesh with stale non-default material marks and one unused material
pair, for the `deleteUnusedMaterials` witness. -/
def meshUnusedM : EditTriMesh :=
  { vList := [sampleVertex 0]
    tList := [sampleTri 0 0 0 0 2]
    mList := [{ diffuseTextureName := "a", mark := 7 },
              { diffuseTextureName := "b", mark := 5 },
              { diffuseTextureName := "c", mark := 3 }]
    pList := [Part.default] }

/-- Counterexample mesh for `detachAllFaces`: a vertex but no triangles,
so the early bail-out keeps the non-empty vertex list. -/
def meshDetachNoTris : EditTriMesh :=
  { vList := [Vertex.default], tList := [], mList := [], pList := [] }

/-- Witness mesh for `detachAllFaces`: two triangles sharing vertices. -/
def meshDetach : EditTriMesh :=
  { vList := [sampleVertex 0, sampleVertex 1, sampleVertex 2, sampleVertex 3]
    tList := [sampleTri 0 1 2 0 0, sampleTri 1 2 3 0 0]
    mList := [Material.default]
    pList := [Part.default] }

/-- Witness mesh for `extractParts`: two parts, two materials, four
vertices, three triangles. -/
def meshExtract : EditTriMesh :=
  { vList := [sampleVertex 0, sampleVertex 1, sampleVertex 2, sampleVertex 3]
    tList := [sampleTri 0 1 2 0 1, sampleTri 1 2 3 1 0, sampleTri 0 1 3 0 1]
    mList := [{ diffuseTextureName := "a", mark := 9 },
              { diffuseTextureName := "b", mark := 9 }]
    pList := [Part.default, { name := "p1", mark := 0 }] }

/-! ## Theorems -/

/-- C4: evaluation at the failing input `p = (0,0,0)`.  After `empty()`,
`add_point(p)` leaves the box empty: the X bounds are set to `p.x`, but
the Y and Z comparisons are made against the already-updated X bounds,
so the Y/Z sentinels survive and `is_empty()` stays `true` - the claim
says the box would exactly bound `p` and stop being empty. -/
theorem add_point_after_empty_box_stays_empty :
    ((AABB3.emptyBox.add_point ⟨0, 0, 0⟩).is_empty = true) ∧
    (AABB3.emptyBox.add_point ⟨0, 0, 0⟩).min = ⟨0, kBigNumber, kBigNumber⟩ ∧
    (AABB3.emptyBox.add_point ⟨0, 0, 0⟩).max = ⟨0, -kBigNumber, -kBigNumber⟩ := by
  decide

/-- C7 counterexample: with the stationary unit box `[0,1]^3`, the moving
unit box starting at `x = 5` and displacement `(-10, 0, 0)`,
`intersect_moving_aabb` returns exactly `2/5 = 0.4`, which is not
approximately `0.3` (it does not lie within `0.05` of `3/10`). -/
theorem intersect_moving_aabb_scenario_not_approx_03 :
    intersect_moving_aabb ⟨⟨0, 0, 0⟩, ⟨1, 1, 1⟩⟩ ⟨⟨5, 0, 0⟩, ⟨6, 1, 1⟩⟩ ⟨-10, 0, 0⟩ = 2 / 5 ∧
    ¬ |intersect_moving_aabb ⟨⟨0, 0, 0⟩, ⟨1, 1, 1⟩⟩ ⟨⟨5, 0, 0⟩, ⟨6, 1, 1⟩⟩ ⟨-10, 0, 0⟩
        - 3 / 10| < 1 / 20 := by
  norm_num [intersect_moving_aabb, axisSlab, kBigNumber]
  rw [abs_of_pos] <;> norm_num

/-- C7 amended: in that scenario the returned entry time is exactly
`0.4` - the moving box's leading edge (at `x = 5`) travels 4 units to
reach the stationary box's face at `x = 1`, and `4 / 10 = 0.4`. -/
theorem intersect_moving_aabb_scenario_t_enter :
    intersect_moving_aabb ⟨⟨0, 0, 0⟩, ⟨1, 1, 1⟩⟩ ⟨⟨5, 0, 0⟩, ⟨6, 1, 1⟩⟩ ⟨-10, 0, 0⟩
      = 2 / 5 := by
  norm_num [intersect_moving_aabb, axisSlab, kBigNumber]

/-- C8 counterexample: the box `[0,1]^3`, center `(2,0,0)` and radius 1
are tangent - the squared distance to the closest point equals the
squared radius - yet `intersects_sphere` returns `false`, so the
claimed `≤` comparison does not match the code. -/
theorem intersects_sphere_tangency_returns_false :
    AABB3.intersects_sphere ⟨⟨0, 0, 0⟩, ⟨1, 1, 1⟩⟩ ⟨2, 0, 0⟩ 1 = false ∧
    distance_squared ⟨2, 0, 0⟩
        (AABB3.closest_point_to ⟨⟨0, 0, 0⟩, ⟨1, 1, 1⟩⟩ ⟨2, 0, 0⟩) ≤ 1 * 1 := by
  constructor
  · norm_num [AABB3.intersects_sphere, AABB3.closest_point_to, distance_squared]
  · norm_num [AABB3.closest_point_to, distance_squared]

/-- C8 amended: for every box, center and radius, `intersects_sphere`
returns true iff the squared distance from the center to the box's
closest point to the center is strictly less than the radius squared. -/
theorem intersects_sphere_iff_strict_lt (b : AABB3) (center : Vec3) (radius : ℚ) :
    b.intersects_sphere center radius = true ↔
      distance_squared center (b.closest_point_to center) < radius * radius := by
  simp [AABB3.intersects_sphere]

/-- C3: evaluation at the failing input (`meshDelP`, `deletePart 0`).
The surviving triangle of part 1 keeps part index 1 (now out of range
for the 1-part list, instead of being decremented to 0) while its
material index is wrongly decremented from 1 to 0. -/
theorem deletePart_decrements_material_not_part :
    ((meshDelP.deletePart 0).pList.length = 1) ∧
    ((meshDelP.deletePart 0).tList.map (fun t => (t.part, t.material)) = [(1, 0)]) ∧
    meshDelP.tList.map (fun t => (t.part, t.material)) = [(1, 1)] := by
  decide

/-- C10: evaluation at the failing input (`meshDelT`, `deleteTri 0`).
Index 0 is a valid triangle index (one triangle), but the bounds check
compares it against the empty vertex list, so the call is a no-op and
the triangle count stays 1 instead of dropping to 0. -/
theorem deleteTri_checks_vertex_list_bounds :
    meshDelT.tList.length = 1 ∧ meshDelT.deleteTri 0 = meshDelT := by
  decide

/-- A triangle none of whose corners references the deleted vertex is
only index-shifted by the `deleteVertex` fixup loop. -/
theorem fixupTri_not_user (vi : Nat) (t : Tri)
    (h0 : t.v0.index ≠ vi) (h1 : t.v1.index ≠ vi) (h2 : t.v2.index ≠ vi) :
    fixupTriDeletedVertex vi t = shiftTriIndices vi t := by
  simp [fixupTriDeletedVertex, shiftTriIndices, shiftVert, h0, h1, h2]

/-- A triangle referencing the deleted vertex is marked 1 by the
`deleteVertex` fixup loop. -/
theorem fixupTri_user_mark (vi : Nat) (t : Tri)
    (h : t.v0.index = vi ∨ t.v1.index = vi ∨ t.v2.index = vi) :
    (fixupTriDeletedVertex vi t).mark = 1 := by
  by_cases h0 : t.v0.index = vi
  · simp [fixupTriDeletedVertex, h0]
  · by_cases h1 : t.v1.index = vi
    · simp [fixupTriDeletedVertex, h0, h1]
    · have h2 : t.v2.index = vi := by tauto
      simp [fixupTriDeletedVertex, h0, h1, h2]

/-- C2: for a mesh with valid triangle indices and a valid vertex index,
`deleteVertex` drops the vertex count by exactly one, and every
remaining triangle stems from a source triangle that did not reference
the deleted index, with every corner index past the deleted slot
decremented by one (`shiftTriIndices`). -/
theorem deleteVertex_spec (m : EditTriMesh) (vi : Nat)
    (hvi : vi < m.vList.length)
    (hvalid : ∀ t ∈ m.tList, t.v0.index < m.vList.length ∧
      t.v1.index < m.vList.length ∧ t.v2.index < m.vList.length) :
    (m.deleteVertex vi).vList.length + 1 = m.vList.length ∧
    ∀ t1 ∈ (m.deleteVertex vi).tList, ∃ t ∈ m.tList,
      (t.v0.index ≠ vi ∧ t.v1.index ≠ vi ∧ t.v2.index ≠ vi) ∧
      t1 = shiftTriIndices vi t := by
  have hd : m.deleteVertex vi =
      { vList := m.vList.eraseIdx vi
        tList := (m.tList.map (fixupTriDeletedVertex vi)).filter (fun t => t.mark ≠ 1)
        mList := m.mList, pList := m.pList } := by
    rw [EditTriMesh.deleteVertex, if_neg (by omega)]
    simp [deleteMarkedTris]
  constructor
  · rw [hd]
    simp only [List.length_eraseIdx]
    rw [if_pos hvi]
    omega
  · intro t1 ht1
    rw [hd] at ht1
    simp only [List.mem_filter, List.mem_map] at ht1
    obtain ⟨⟨t, htm, rfl⟩, hmark⟩ := ht1
    have hmark1 : (fixupTriDeletedVertex vi t).mark ≠ 1 := by simpa using hmark
    have h0 : t.v0.index ≠ vi := fun h => hmark1 (fixupTri_user_mark vi t (Or.inl h))
    have h1 : t.v1.index ≠ vi := fun h => hmark1 (fixupTri_user_mark vi t (Or.inr (Or.inl h)))
    have h2 : t.v2.index ≠ vi := fun h => hmark1 (fixupTri_user_mark vi t (Or.inr (Or.inr h)))
    exact ⟨t, htm, ⟨h0, h1, h2⟩, fixupTri_not_user vi t h0 h1 h2⟩

/-- C2 witness: the specification of `deleteVertex`, instantiated at the
concrete mesh `meshDelV` and vertex index 1. -/
theorem deleteVertex_spec_witness :
    (meshDelV.deleteVertex 1).vList.length + 1 = meshDelV.vList.length ∧
    ∀ t1 ∈ (meshDelV.deleteVertex 1).tList, ∃ t ∈ meshDelV.tList,
      (t.v0.index ≠ 1 ∧ t.v1.index ≠ 1 ∧ t.v2.index ≠ 1) ∧
      t1 = shiftTriIndices 1 t :=
  deleteVertex_spec meshDelV 1 (by decide) (by decide)

/-- `detachTris` preserves the triangle count. -/
theorem detachTris_length (n : Nat) (l : List Tri) :
    (detachTris n l).length = l.length := by
  induction l generalizing n with
  | nil => rfl
  | cons t rest ih => simp [detachTris, ih]

/-- `detachVerts` produces three vertices per triangle. -/
theorem detachVerts_length (vl : List Vertex) (l : List Tri) :
    (detachVerts vl l).length = 3 * l.length := by
  induction l with
  | nil => rfl
  | cons t rest ih =>
    simp only [detachVerts, List.length_cons, ih]
    omega

/-- Triangle `i` of `detachTris n l` is triangle `i` of `l` with its
corners remapped to `3*(n+i)`, `3*(n+i)+1`, `3*(n+i)+2`. -/
theorem detachTris_getD (n : Nat) (l : List Tri) (i : Nat) (hi : i < l.length) :
    (detachTris n l).getD i Tri.default =
      { l.getD i Tri.default with
          v0 := { (l.getD i Tri.default).v0 with index := 3 * (n + i) }
          v1 := { (l.getD i Tri.default).v1 with index := 3 * (n + i) + 1 }
          v2 := { (l.getD i Tri.default).v2 with index := 3 * (n + i) + 2 } } := by
  induction l generalizing n i with
  | nil => simp at hi
  | cons t rest ih =>
    cases i with
    | zero => simp [detachTris]
    | succ j =>
      have hj : j < rest.length := by simpa using hi
      rw [show n + (j + 1) = (n + 1) + j from by omega]
      simpa [detachTris] using ih (n + 1) j hj

/-- Slot `3*i` of the detached vertex list is the copy made for corner 0
of triangle `i`. -/
theorem detachVerts_getD0 (vl : List Vertex) (l : List Tri) (i : Nat) (hi : i < l.length) :
    (detachVerts vl l).getD (3 * i) Vertex.default =
      detachCopyVertex vl (l.getD i Tri.default).v0 := by
  induction l generalizing i with
  | nil => simp at hi
  | cons t rest ih =>
    cases i with
    | zero => simp [detachVerts]
    | succ j =>
      have hj : j < rest.length := by simpa using hi
      rw [show 3 * (j + 1) = 3 * j + 1 + 1 + 1 from by omega]
      simpa [detachVerts] using ih j hj

/-- Slot `3*i + 1` of the detached vertex list is the copy made for
corner 1 of triangle `i`. -/
theorem detachVerts_getD1 (vl : List Vertex) (l : List Tri) (i : Nat) (hi : i < l.length) :
    (detachVerts vl l).getD (3 * i + 1) Vertex.default =
      detachCopyVertex vl (l.getD i Tri.default).v1 := by
  induction l generalizing i with
  | nil => simp at hi
  | cons t rest ih =>
    cases i with
    | zero => simp [detachVerts]
    | succ j =>
      have hj : j < rest.length := by simpa using hi
      rw [show 3 * (j + 1) + 1 = 3 * j + 1 + 1 + 1 + 1 from by omega]
      simpa [detachVerts] using ih j hj

/-- Slot `3*i + 2` of the detached vertex list is the copy made for
corner 2 of triangle `i`. -/
theorem detachVerts_getD2 (vl : List Vertex) (l : List Tri) (i : Nat) (hi : i < l.length) :
    (detachVerts vl l).getD (3 * i + 2) Vertex.default =
      detachCopyVertex vl (l.getD i Tri.default).v2 := by
  induction l generalizing i with
  | nil => simp at hi
  | cons t rest ih =>
    cases i with
    | zero => simp [detachVerts]
    | succ j =>
      have hj : j < rest.length := by simpa using hi
      rw [show 3 * (j + 1) + 2 = 3 * j + 2 + 1 + 1 + 1 from by omega]
      simpa [detachVerts] using ih j hj

/-- The copy made for a face corner carries the persistent data of the
referenced source vertex. -/
theorem detachCopyVertex_dataEq (vl : List Vertex) (w : Vert) :
    VertexDataEq (detachCopyVertex vl w) (vl.getD w.index Vertex.default) := by
  simp [detachCopyVertex, VertexDataEq]

/-- C6 counterexample: on a mesh with one vertex and no triangles,
`detachAllFaces` bails out unchanged, so the vertex list keeps its one
entry instead of the claimed `3 x triangle count = 0`. -/
theorem detachAllFaces_no_tris_counterexample :
    meshDetachNoTris.detachAllFaces = meshDetachNoTris ∧
    ¬ ((meshDetachNoTris.detachAllFaces).vList.length
        = 3 * (meshDetachNoTris.detachAllFaces).tList.length) := by
  decide

/-- C6 amended (restricted to meshes with at least one triangle): after
`detachAllFaces` the vertex list has exactly `3 x triangle count`
entries, corner `j` of triangle `i` references index `3*i + j`, and the
vertex at that index carries the position, normal and UV of the vertex
the corner referenced before the call. -/
theorem detachAllFaces_spec (m : EditTriMesh)
    (hne : m.tList ≠ [])
    (hvalid : ∀ t ∈ m.tList, t.v0.index < m.vList.length ∧
      t.v1.index < m.vList.length ∧ t.v2.index < m.vList.length) :
    (m.detachAllFaces).tList.length = m.tList.length ∧
    (m.detachAllFaces).vList.length = 3 * m.tList.length ∧
    ∀ i, i < m.tList.length →
      ((m.detachAllFaces).tList.getD i Tri.default).v0.index = 3 * i ∧
      ((m.detachAllFaces).tList.getD i Tri.default).v1.index = 3 * i + 1 ∧
      ((m.detachAllFaces).tList.getD i Tri.default).v2.index = 3 * i + 2 ∧
      VertexDataEq ((m.detachAllFaces).vList.getD (3 * i) Vertex.default)
        (m.vList.getD (m.tList.getD i Tri.default).v0.index Vertex.default) ∧
      VertexDataEq ((m.detachAllFaces).vList.getD (3 * i + 1) Vertex.default)
        (m.vList.getD (m.tList.getD i Tri.default).v1.index Vertex.default) ∧
      VertexDataEq ((m.detachAllFaces).vList.getD (3 * i + 2) Vertex.default)
        (m.vList.getD (m.tList.getD i Tri.default).v2.index Vertex.default) := by
  have hie : m.tList.isEmpty = false := by
    cases h : m.tList with
    | nil => exact absurd h hne
    | cons a l => rfl
  have hd : m.detachAllFaces =
      { m with vList := detachVerts m.vList m.tList, tList := detachTris 0 m.tList } := by
    rw [EditTriMesh.detachAllFaces, hie]
    rfl
  refine ⟨by rw [hd]; exact detachTris_length 0 m.tList,
          by rw [hd]; exact detachVerts_length m.vList m.tList, ?_⟩
  intro i hi
  rw [hd]
  have ht := detachTris_getD 0 m.tList i hi
  have h0 := detachVerts_getD0 m.vList m.tList i hi
  have h1 := detachVerts_getD1 m.vList m.tList i hi
  have h2 := detachVerts_getD2 m.vList m.tList i hi
  simp only [ht, h0, h1, h2, Nat.zero_add]
  exact ⟨trivial, trivial, trivial, detachCopyVertex_dataEq _ _, detachCopyVertex_dataEq _ _,
    detachCopyVertex_dataEq _ _⟩

/-- C6 witness: the amended `detachAllFaces` property instantiated at
the concrete mesh `meshDetach`. -/
theorem detachAllFaces_spec_witness :
    (meshDetach.detachAllFaces).tList.length = meshDetach.tList.length ∧
    (meshDetach.detachAllFaces).vList.length = 3 * meshDetach.tList.length ∧
    ∀ i, i < meshDetach.tList.length →
      ((meshDetach.detachAllFaces).tList.getD i Tri.default).v0.index = 3 * i ∧
      ((meshDetach.detachAllFaces).tList.getD i Tri.default).v1.index = 3 * i + 1 ∧
      ((meshDetach.detachAllFaces).tList.getD i Tri.default).v2.index = 3 * i + 2 ∧
      VertexDataEq ((meshDetach.detachAllFaces).vList.getD (3 * i) Vertex.default)
        (meshDetach.vList.getD (meshDetach.tList.getD i Tri.default).v0.index Vertex.default) ∧
      VertexDataEq ((meshDetach.detachAllFaces).vList.getD (3 * i + 1) Vertex.default)
        (meshDetach.vList.getD (meshDetach.tList.getD i Tri.default).v1.index Vertex.default) ∧
      VertexDataEq ((meshDetach.detachAllFaces).vList.getD (3 * i + 2) Vertex.default)
        (meshDetach.vList.getD (meshDetach.tList.getD i Tri.default).v2.index Vertex.default) :=
  detachAllFaces_spec meshDetach (by decide) (by decide)

/-- C9: `normalize` never divides by zero - when the squared magnitude
is not positive the vector (which is then the zero vector) is left
unchanged, and otherwise the result has unit magnitude. -/
theorem normalize_spec (v : Vector3R) :
    (¬ v.x * v.x + v.y * v.y + v.z * v.z > 0 →
        v.normalize = v ∧ v.x = 0 ∧ v.y = 0 ∧ v.z = 0) ∧
    (v.x * v.x + v.y * v.y + v.z * v.z > 0 → v.normalize.magnitude = 1) := by
  constructor
  · intro h
    have hle : v.x * v.x + v.y * v.y + v.z * v.z ≤ 0 := not_lt.mp h
    have hx : v.x = 0 := by
      have : v.x * v.x = 0 :=
        le_antisymm (by nlinarith [mul_self_nonneg v.y, mul_self_nonneg v.z])
          (mul_self_nonneg v.x)
      exact mul_self_eq_zero.mp this
    have hy : v.y = 0 := by
      have : v.y * v.y = 0 :=
        le_antisymm (by nlinarith [mul_self_nonneg v.x, mul_self_nonneg v.z])
          (mul_self_nonneg v.y)
      exact mul_self_eq_zero.mp this
    have hz : v.z = 0 := by
      have : v.z * v.z = 0 :=
        le_antisymm (by nlinarith [mul_self_nonneg v.x, mul_self_nonneg v.y])
          (mul_self_nonneg v.z)
      exact mul_self_eq_zero.mp this
    refine ⟨?_, hx, hy, hz⟩
    simp [Vector3R.normalize, h]
  · intro h
    have hsqrt : Real.sqrt (v.x * v.x + v.y * v.y + v.z * v.z) *
        Real.sqrt (v.x * v.x + v.y * v.y + v.z * v.z) =
        v.x * v.x + v.y * v.y + v.z * v.z := Real.mul_self_sqrt (le_of_lt h)
    have hsne : Real.sqrt (v.x * v.x + v.y * v.y + v.z * v.z) ≠ 0 :=
      ne_of_gt (Real.sqrt_pos.mpr h)
    simp only [Vector3R.normalize, Vector3R.magnitude, if_pos h]
    have hsum : v.x * (1 / Real.sqrt (v.x * v.x + v.y * v.y + v.z * v.z)) *
        (v.x * (1 / Real.sqrt (v.x * v.x + v.y * v.y + v.z * v.z))) +
        v.y * (1 / Real.sqrt (v.x * v.x + v.y * v.y + v.z * v.z)) *
        (v.y * (1 / Real.sqrt (v.x * v.x + v.y * v.y + v.z * v.z))) +
        v.z * (1 / Real.sqrt (v.x * v.x + v.y * v.y + v.z * v.z)) *
        (v.z * (1 / Real.sqrt (v.x * v.x + v.y * v.y + v.z * v.z))) = 1 := by
      field_simp
    rw [hsum, Real.sqrt_one]

/-- C9 witness: normalizing the zero vector leaves it at zero. -/
theorem normalize_spec_witness :
    Vector3R.normalize ⟨0, 0, 0⟩ = (⟨0, 0, 0⟩ : Vector3R) ∧
    (⟨0, 0, 0⟩ : Vector3R).x = 0 ∧ (⟨0, 0, 0⟩ : Vector3R).y = 0 ∧
    (⟨0, 0, 0⟩ : Vector3R).z = 0 :=
  (normalize_spec ⟨0, 0, 0⟩).1 (by norm_num)

/-! ### Helper lemmas for `deleteUnusedMaterials` -/

/-- Marking one material used preserves the list length. -/
theorem setMaterialMarkUsed_length (ml : List Material) (i : Nat) :
    (setMaterialMarkUsed ml i).length = ml.length := by
  induction ml generalizing i with
  | nil => rfl
  | cons mat rest ih =>
    cases i with
    | zero => rfl
    | succ k => simp [setMaterialMarkUsed, ih]

/-- Pointwise effect of marking one material used. -/
theorem setMaterialMarkUsed_getD (ml : List Material) (i j : Nat) (hj : j < ml.length) :
    (setMaterialMarkUsed ml i).getD j Material.default =
      if j = i then { ml.getD j Material.default with mark := 1 }
      else ml.getD j Material.default := by
  induction ml generalizing i j with
  | nil => simp at hj
  | cons mat rest ih =>
    cases i with
    | zero =>
      cases j with
      | zero => simp [setMaterialMarkUsed]
      | succ k => simp [setMaterialMarkUsed]
    | succ i1 =>
      cases j with
      | zero => simp [setMaterialMarkUsed]
      | succ k =>
        have hk : k < rest.length := by simpa using hj
        rw [show setMaterialMarkUsed (mat :: rest) (i1 + 1)
              = mat :: setMaterialMarkUsed rest i1 from rfl,
          List.getD_cons_succ, List.getD_cons_succ, ih i1 k hk]
        by_cases hki : k = i1
        · rw [if_pos hki, if_pos (by omega : k + 1 = i1 + 1)]
        · rw [if_neg hki, if_neg (by omega : ¬ k + 1 = i1 + 1)]

/-- The triangle scan preserves the material list length. -/
theorem scanTris_length (ts : List Tri) (ml : List Material) :
    (scanTrisMarkMaterials ml ts).length = ml.length := by
  induction ts generalizing ml with
  | nil => rfl
  | cons t rest ih =>
    rw [scanTrisMarkMaterials, ih, setMaterialMarkUsed_length]

/-- Pointwise effect of the triangle scan: a material ends up marked 1
exactly when some triangle references it. -/
theorem scanTris_getD (ts : List Tri) (ml : List Material) (j : Nat) (hj : j < ml.length) :
    (scanTrisMarkMaterials ml ts).getD j Material.default =
      if ∃ t ∈ ts, t.material = j then { ml.getD j Material.default with mark := 1 }
      else ml.getD j Material.default := by
  induction ts generalizing ml with
  | nil => simp [scanTrisMarkMaterials]
  | cons t rest ih =>
    have hj1 : j < (setMaterialMarkUsed ml t.material).length := by
      rw [setMaterialMarkUsed_length]; exact hj
    rw [scanTrisMarkMaterials, ih (setMaterialMarkUsed ml t.material) hj1,
      setMaterialMarkUsed_getD ml t.material j hj]
    have hcons : (∃ t1 ∈ t :: rest, t1.material = j) ↔
        (t.material = j ∨ ∃ t1 ∈ rest, t1.material = j) := by
      constructor
      · rintro ⟨t1, ht1, he⟩
        rcases List.mem_cons.mp ht1 with rfl | hm
        · exact Or.inl he
        · exact Or.inr ⟨t1, hm, he⟩
      · rintro (he | ⟨t1, hm, he⟩)
        · exact ⟨t, List.mem_cons_self t rest, he⟩
        · exact ⟨t1, List.mem_cons_of_mem t hm, he⟩
    by_cases hb : j = t.material
    · rw [if_pos hb, if_pos (hcons.mpr (Or.inl hb.symm))]
      by_cases hr : ∃ t1 ∈ rest, t1.material = j
      · rw [if_pos hr]
      · rw [if_neg hr]
    · rw [if_neg hb]
      by_cases hr : ∃ t1 ∈ rest, t1.material = j
      · rw [if_pos hr, if_pos (hcons.mpr (Or.inr hr))]
      · rw [if_neg hr, if_neg (fun hx => by
          rcases hcons.mp hx with he | he
          · exact hb he.symm
          · exact hr he)]

/-- The renumbering pass preserves the list length. -/
theorem assignMaterialMarks_length (ml : List Material) (c : Nat) :
    (assignMaterialMarks ml c).length = ml.length := by
  induction ml generalizing c with
  | nil => rfl
  | cons mat rest ih =>
    by_cases h : mat.mark = 0 <;> simp [assignMaterialMarks, h, ih]

/-- Pointwise effect of the renumbering pass: an unused entry gets the
sentinel -1, a used one gets `c` plus the number of used entries before
it. -/
theorem assignMaterialMarks_getD (ml : List Material) (c j : Nat) (hj : j < ml.length) :
    (assignMaterialMarks ml c).getD j Material.default =
      if (ml.getD j Material.default).mark = 0
      then { ml.getD j Material.default with mark := -1 }
      else { ml.getD j Material.default with
             mark := ((c + (ml.take j).countP (fun mat => mat.mark ≠ 0) : Nat) : Int) } := by
  induction ml generalizing c j with
  | nil => simp at hj
  | cons mat rest ih =>
    cases j with
    | zero =>
      by_cases h : mat.mark = 0 <;> simp [assignMaterialMarks, h]
    | succ k =>
      have hk : k < rest.length := by simpa using hj
      by_cases h : mat.mark = 0
      · have hdec : (decide (mat.mark ≠ 0)) = false := by simp [h]
        rw [show assignMaterialMarks (mat :: rest) c
              = { mat with mark := -1 } :: assignMaterialMarks rest c from by
            rw [assignMaterialMarks, if_pos h],
          List.getD_cons_succ, List.getD_cons_succ, ih c k hk,
          List.take_succ_cons, List.countP_cons, hdec]
        simp
      · have hdec : (decide (mat.mark ≠ 0)) = true := by simp [h]
        rw [show assignMaterialMarks (mat :: rest) c
              = { mat with mark := (c : Int) } :: assignMaterialMarks rest (c + 1) from by
            rw [assignMaterialMarks, if_neg h],
          List.getD_cons_succ, List.getD_cons_succ, ih (c + 1) k hk,
          List.take_succ_cons, List.countP_cons, hdec]
        by_cases h2 : (rest.getD k Material.default).mark = 0
        · rw [if_pos h2, if_pos h2]
        · rw [if_neg h2, if_neg h2]
          have harith : ((c + 1 + (rest.take k).countP (fun mat => mat.mark ≠ 0) : Nat) : Int)
              = ((c + ((rest.take k).countP (fun mat => mat.mark ≠ 0)
                  + if (true : Bool) = true then 1 else 0) : Nat) : Int) := by
            simp
            omega
          rw [harith]

/-- Filtering out the sentinel-marked entries of the renumbered list
keeps exactly the used entries. -/
theorem assignFilter_length (ml : List Material) (c : Nat) :
    ((assignMaterialMarks ml c).filter (fun mat => mat.mark ≠ -1)).length
      = ml.countP (fun mat => mat.mark ≠ 0) := by
  induction ml generalizing c with
  | nil => rfl
  | cons mat rest ih =>
    by_cases h : mat.mark = 0
    · rw [show assignMaterialMarks (mat :: rest) c
            = { mat with mark := -1 } :: assignMaterialMarks rest c from by
          rw [assignMaterialMarks, if_pos h],
        List.filter_cons_of_neg (by simp), ih c, List.countP_cons,
        show (decide (mat.mark ≠ 0)) = false from by simp [h],
        if_neg Bool.false_ne_true]
      omega
    · have hfc : ({ mat with mark := ((c : Nat) : Int) } :: assignMaterialMarks rest (c + 1)).filter
            (fun mat => mat.mark ≠ -1)
          = { mat with mark := ((c : Nat) : Int) } ::
            (assignMaterialMarks rest (c + 1)).filter (fun mat => mat.mark ≠ -1) := by
        rw [List.filter_cons_of_pos]
        exact decide_eq_true (show ((c : Nat) : Int) ≠ -1 by omega)
      rw [show assignMaterialMarks (mat :: rest) c
            = { mat with mark := (c : Int) } :: assignMaterialMarks rest (c + 1) from by
          rw [assignMaterialMarks, if_neg h],
        hfc, List.length_cons, ih (c + 1), List.countP_cons,
        show (decide (mat.mark ≠ 0)) = true from by simp [h], if_pos rfl]

/-- The `j`-th surviving entry of the renumbered-and-filtered list
carries mark `c + j`. -/
theorem assignFilter_getD_mark (ml : List Material) (c j : Nat)
    (hj : j < ml.countP (fun mat => mat.mark ≠ 0)) :
    (((assignMaterialMarks ml c).filter (fun mat => mat.mark ≠ -1)).getD j
        Material.default).mark = ((c + j : Nat) : Int) := by
  induction ml generalizing c j with
  | nil => simp at hj
  | cons mat rest ih =>
    by_cases h : mat.mark = 0
    · have hj2 : j < rest.countP (fun mat => mat.mark ≠ 0) := by
        rw [List.countP_cons, show (decide (mat.mark ≠ 0)) = false from by simp [h],
          if_neg Bool.false_ne_true] at hj
        omega
      rw [show assignMaterialMarks (mat :: rest) c
            = { mat with mark := -1 } :: assignMaterialMarks rest c from by
          rw [assignMaterialMarks, if_pos h],
        List.filter_cons_of_neg (by simp)]
      exact ih c j hj2
    · cases j with
      | zero =>
        have hfc : ({ mat with mark := ((c : Nat) : Int) } :: assignMaterialMarks rest (c + 1)).filter
              (fun mat => mat.mark ≠ -1)
            = { mat with mark := ((c : Nat) : Int) } ::
              (assignMaterialMarks rest (c + 1)).filter (fun mat => mat.mark ≠ -1) := by
          rw [List.filter_cons_of_pos]
          exact decide_eq_true (show ((c : Nat) : Int) ≠ -1 by omega)
        rw [show assignMaterialMarks (mat :: rest) c
              = { mat with mark := (c : Int) } :: assignMaterialMarks rest (c + 1) from by
            rw [assignMaterialMarks, if_neg h],
          hfc, List.getD_cons_zero]
        simp
      | succ k =>
        have hk : k < rest.countP (fun mat => mat.mark ≠ 0) := by
          rw [List.countP_cons, show (decide (mat.mark ≠ 0)) = true from by simp [h],
            if_pos rfl] at hj
          omega
        have hfc : ({ mat with mark := ((c : Nat) : Int) } :: assignMaterialMarks rest (c + 1)).filter
              (fun mat => mat.mark ≠ -1)
            = { mat with mark := ((c : Nat) : Int) } ::
              (assignMaterialMarks rest (c + 1)).filter (fun mat => mat.mark ≠ -1) := by
          rw [List.filter_cons_of_pos]
          exact decide_eq_true (show ((c : Nat) : Int) ≠ -1 by omega)
        rw [show assignMaterialMarks (mat :: rest) c
              = { mat with mark := (c : Int) } :: assignMaterialMarks rest (c + 1) from by
            rw [assignMaterialMarks, if_neg h],
          hfc, List.getD_cons_succ, ih (c + 1) k hk]
        omega

/-- Any index belowings the used-entry count locates a used entry whose
prefix holds exactly that many used entries. -/
theorem existsUsedPos (ml : List Material) (j : Nat)
    (hj : j < ml.countP (fun mat => mat.mark ≠ 0)) :
    ∃ i, i < ml.length ∧ (ml.getD i Material.default).mark ≠ 0 ∧
      (ml.take i).countP (fun mat => mat.mark ≠ 0) = j := by
  induction ml generalizing j with
  | nil => simp at hj
  | cons mat rest ih =>
    by_cases h : mat.mark = 0
    · have hj2 : j < rest.countP (fun mat => mat.mark ≠ 0) := by
        rw [List.countP_cons, show (decide (mat.mark ≠ 0)) = false from by simp [h],
          if_neg Bool.false_ne_true] at hj
        omega
      obtain ⟨i, hi, hu, hcnt⟩ := ih j hj2
      refine ⟨i + 1, by simpa using Nat.succ_lt_succ hi, by simpa using hu, ?_⟩
      rw [List.take_succ_cons, List.countP_cons,
        show (decide (mat.mark ≠ 0)) = false from by simp [h],
        if_neg Bool.false_ne_true, hcnt]
      omega
    · cases j with
      | zero => exact ⟨0, by simp, by simpa using h, by simp⟩
      | succ k =>
        have hk : k < rest.countP (fun mat => mat.mark ≠ 0) := by
          rw [List.countP_cons, show (decide (mat.mark ≠ 0)) = true from by simp [h],
            if_pos rfl] at hj
          omega
        obtain ⟨i, hi, hu, hcnt⟩ := ih k hk
        refine ⟨i + 1, by simpa using Nat.succ_lt_succ hi, by simpa using hu, ?_⟩
        rw [List.take_succ_cons, List.countP_cons,
          show (decide (mat.mark ≠ 0)) = true from by simp [h], if_pos rfl, hcnt]

/-- A used entry strictly separates its prefix count from the total
count. -/
theorem countP_take_lt (ml : List Material) (i : Nat) (hi : i < ml.length)
    (hu : (ml.getD i Material.default).mark ≠ 0) :
    (ml.take i).countP (fun mat => mat.mark ≠ 0)
      < ml.countP (fun mat => mat.mark ≠ 0) := by
  induction ml generalizing i with
  | nil => simp at hi
  | cons mat rest ih =>
    cases i with
    | zero =>
      have h0 : mat.mark ≠ 0 := by simpa using hu
      rw [List.take_zero, List.countP_nil, List.countP_cons,
        show (decide (mat.mark ≠ 0)) = true from by simp [h0], if_pos rfl]
      omega
    | succ k =>
      have hk : k < rest.length := by simpa using hi
      have hu2 : (rest.getD k Material.default).mark ≠ 0 := by simpa using hu
      have hlt := ih k hk hu2
      rw [List.take_succ_cons, List.countP_cons, List.countP_cons]
      by_cases h : mat.mark = 0
      · rw [show (decide (mat.mark ≠ 0)) = false from by simp [h],
          if_neg Bool.false_ne_true]
        omega
      · rw [show (decide (mat.mark ≠ 0)) = true from by simp [h], if_pos rfl]
        omega

/-- If the used-entry count equals the length, every entry is used. -/
theorem usedAll_of_countP_eq_length (ml : List Material)
    (h : ml.countP (fun mat => mat.mark ≠ 0) = ml.length) :
    ∀ j, j < ml.length → (ml.getD j Material.default).mark ≠ 0 := by
  induction ml with
  | nil => intro j hj; simp at hj
  | cons mat rest ih =>
    have hle := List.countP_le_length (p := fun mat => decide (mat.mark ≠ 0)) (l := rest)
    by_cases hm : mat.mark = 0
    · exfalso
      rw [List.countP_cons, show (decide (mat.mark ≠ 0)) = false from by simp [hm],
        if_neg Bool.false_ne_true, List.length_cons] at h
      omega
    · intro j hj
      cases j with
      | zero => simpa using hm
      | succ k =>
        have hrest : rest.countP (fun mat => mat.mark ≠ 0) = rest.length := by
          rw [List.countP_cons, show (decide (mat.mark ≠ 0)) = true from by simp [hm],
            if_pos rfl, List.length_cons] at h
          omega
        exact ih hrest k (by simpa using hj)

/-- If every entry is used, every prefix count equals the prefix
length. -/
theorem countP_take_of_usedAll (ml : List Material)
    (h : ∀ j, j < ml.length → (ml.getD j Material.default).mark ≠ 0) :
    ∀ i, i ≤ ml.length → (ml.take i).countP (fun mat => mat.mark ≠ 0) = i := by
  induction ml with
  | nil =>
    intro i hi
    have : i = 0 := Nat.le_zero.mp (by simpa using hi)
    simp [this]
  | cons mat rest ih =>
    intro i hi
    cases i with
    | zero => simp
    | succ k =>
      have h0 : mat.mark ≠ 0 := by simpa using h 0 (by simp)
      have hrest : ∀ j, j < rest.length → (rest.getD j Material.default).mark ≠ 0 := by
        intro j hj
        simpa using h (j + 1) (by simpa using Nat.succ_lt_succ hj)
      have hk : k ≤ rest.length := by simpa using hi
      rw [List.take_succ_cons, List.countP_cons,
        show (decide (mat.mark ≠ 0)) = true from by simp [h0], if_pos rfl,
        ih hrest k hk]

/-- Pointwise form of the initial mark-clearing map. -/
theorem map_mark0_getD (ml : List Material) (j : Nat) (hj : j < ml.length) :
    (ml.map (fun mat => { mat with mark := 0 })).getD j Material.default
      = { ml.getD j Material.default with mark := 0 } := by
  induction ml generalizing j with
  | nil => simp at hj
  | cons mat rest ih =>
    cases j with
    | zero => simp
    | succ k =>
      have hk : k < rest.length := by simpa using hj
      simpa using ih k hk

/-- Two lists of equal length that agree on `getD` at every index are
equal. -/
theorem listEq_of_getD {α : Type} (d : α) (l1 l2 : List α)
    (hlen : l1.length = l2.length)
    (h : ∀ j, j < l1.length → l1.getD j d = l2.getD j d) : l1 = l2 := by
  induction l1 generalizing l2 with
  | nil =>
    cases l2 with
    | nil => rfl
    | cons b l => simp at hlen
  | cons a l ih =>
    cases l2 with
    | nil => simp at hlen
    | cons b l2t =>
      have h0 := h 0 (by simp)
      simp only [List.getD_cons_zero] at h0
      have ht : l = l2t :=
        ih l2t (by simpa using hlen)
          (fun j hj => by simpa using h (j + 1) (by simpa using Nat.succ_lt_succ hj))
      rw [h0, ht]

/-- `deleteUnusedMaterials` with its intermediate `let`s expanded. -/
theorem deleteUnusedMaterials_eq (m : EditTriMesh) :
    m.deleteUnusedMaterials =
      if (scanTrisMarkMaterials (m.mList.map (fun mat => { mat with mark := 0 }))
            m.tList).countP (fun mat => mat.mark ≠ 0) = m.mList.length
      then { m with
             mList := assignMaterialMarks
               (scanTrisMarkMaterials (m.mList.map (fun mat => { mat with mark := 0 }))
                 m.tList) 0 }
      else
        { m with
          tList := m.tList.map (fun t =>
            { t with
              material := (((assignMaterialMarks
                (scanTrisMarkMaterials (m.mList.map (fun mat => { mat with mark := 0 }))
                  m.tList) 0).getD t.material Material.default).mark).toNat })
          mList := (assignMaterialMarks
            (scanTrisMarkMaterials (m.mList.map (fun mat => { mat with mark := 0 }))
              m.tList) 0).filter (fun mat => mat.mark ≠ -1) } := rfl

/-- Length of the scanned material list. -/
theorem pipeline_len (m : EditTriMesh) :
    (scanTrisMarkMaterials (m.mList.map (fun mat => { mat with mark := 0 }))
        m.tList).length = m.mList.length := by
  rw [scanTris_length, List.length_map]

/-- Pointwise characterization of the scanned material list: the source
entry with its mark set to 1 when referenced, to 0 otherwise. -/
theorem pipeline_getD (m : EditTriMesh) (j : Nat) (hj : j < m.mList.length) :
    (scanTrisMarkMaterials (m.mList.map (fun mat => { mat with mark := 0 }))
        m.tList).getD j Material.default =
      if ∃ t ∈ m.tList, t.material = j
      then { m.mList.getD j Material.default with mark := 1 }
      else { m.mList.getD j Material.default with mark := 0 } := by
  have hj0 : j < (m.mList.map (fun mat => { mat with mark := 0 })).length := by
    rw [List.length_map]; exact hj
  rw [scanTris_getD m.tList _ j hj0, map_mark0_getD m.mList j hj]

/-- A mesh in which every material is referenced by some triangle, every
triangle's material index is in range, and material `j` carries mark `j`
is a fixed point of `deleteUnusedMaterials`. -/
theorem deleteUnusedMaterials_fixed (r : EditTriMesh)
    (hval : ∀ t ∈ r.tList, t.material < r.mList.length)
    (href : ∀ j, j < r.mList.length → ∃ t ∈ r.tList, t.material = j)
    (hmark : ∀ j, j < r.mList.length →
      (r.mList.getD j Material.default).mark = (j : Int)) :
    r.deleteUnusedMaterials = r := by
  rw [deleteUnusedMaterials_eq r]
  set ml1 := scanTrisMarkMaterials (r.mList.map (fun mat => { mat with mark := 0 }))
    r.tList with hml1
  set ml2 := assignMaterialMarks ml1 0 with hml2
  have hlen1 : ml1.length = r.mList.length := pipeline_len r
  have husedAll : ∀ j, j < ml1.length → (ml1.getD j Material.default).mark ≠ 0 := by
    intro j hj
    have hjL : j < r.mList.length := by omega
    rw [hml1, pipeline_getD r j hjL, if_pos (href j hjL)]
    norm_num
  have hcnt : ml1.countP (fun mat => mat.mark ≠ 0) = r.mList.length := by
    have := countP_take_of_usedAll ml1 husedAll ml1.length le_rfl
    rw [List.take_length] at this
    rw [this, hlen1]
  rw [if_pos hcnt]
  have hml2r : ml2 = r.mList := by
    apply listEq_of_getD Material.default
    · rw [hml2, assignMaterialMarks_length, hlen1]
    · intro j hj
      have hj1 : j < ml1.length := by
        rw [hml2, assignMaterialMarks_length] at hj
        exact hj
      have hjL : j < r.mList.length := by omega
      rw [hml2, assignMaterialMarks_getD ml1 0 j hj1, if_neg (husedAll j hj1)]
      have htake : (ml1.take j).countP (fun mat => mat.mark ≠ 0) = j :=
        countP_take_of_usedAll ml1 husedAll j (by omega)
      rw [htake]
      have hname : (ml1.getD j Material.default).diffuseTextureName =
          (r.mList.getD j Material.default).diffuseTextureName := by
        rw [hml1, pipeline_getD r j hjL]
        by_cases hr2 : ∃ t ∈ r.tList, t.material = j
        · rw [if_pos hr2]
        · rw [if_neg hr2]
      rw [show r.mList.getD j Material.default
            = Material.mk ((r.mList.getD j Material.default).diffuseTextureName)
                ((r.mList.getD j Material.default).mark) from rfl]
      have hm2 : ((0 + j : Nat) : Int) = (r.mList.getD j Material.default).mark := by
        rw [hmark j hjL]; omega
      rw [show ({ ml1.getD j Material.default with mark := ((0 + j : Nat) : Int) })
            = Material.mk ((ml1.getD j Material.default).diffuseTextureName)
                ((0 + j : Nat) : Int) from rfl, hname, hm2]
  rw [hml2r]

/-- C5: for a mesh whose triangle material indices are all valid, after
`deleteUnusedMaterials` every material is referenced by at least one
triangle, every triangle's material index is valid, and running the
operation a second time changes nothing. -/
theorem deleteUnusedMaterials_spec (m : EditTriMesh)
    (hval : ∀ t ∈ m.tList, t.material < m.mList.length) :
    (∀ j, j < m.deleteUnusedMaterials.mList.length →
        ∃ t ∈ m.deleteUnusedMaterials.tList, t.material = j) ∧
    (∀ t ∈ m.deleteUnusedMaterials.tList,
        t.material < m.deleteUnusedMaterials.mList.length) ∧
    m.deleteUnusedMaterials.deleteUnusedMaterials = m.deleteUnusedMaterials := by
  rw [deleteUnusedMaterials_eq m]
  set ml1 := scanTrisMarkMaterials (m.mList.map (fun mat => { mat with mark := 0 }))
    m.tList with hml1
  set ml2 := assignMaterialMarks ml1 0 with hml2
  have hlen1 : ml1.length = m.mList.length := pipeline_len m
  have hrefused : ∀ j, j < m.mList.length →
      ((ml1.getD j Material.default).mark ≠ 0 ↔ ∃ t ∈ m.tList, t.material = j) := by
    intro j hj
    rw [hml1, pipeline_getD m j hj]
    by_cases hr : ∃ t ∈ m.tList, t.material = j
    · rw [if_pos hr]
      simp [hr]
    · rw [if_neg hr]
      simp [hr]
  by_cases hc : ml1.countP (fun mat => mat.mark ≠ 0) = m.mList.length
  · rw [if_pos hc]
    have husedAll : ∀ j, j < ml1.length → (ml1.getD j Material.default).mark ≠ 0 :=
      usedAll_of_countP_eq_length ml1 (by rw [hc, hlen1])
    have hml2len : ml2.length = m.mList.length := by
      rw [hml2, assignMaterialMarks_length, hlen1]
    have h1 : ∀ j, j < ({ m with mList := ml2 }).mList.length →
        ∃ t ∈ ({ m with mList := ml2 }).tList, t.material = j := by
      intro j hj
      have hjL : j < m.mList.length := by
        have : j < ml2.length := hj
        omega
      exact (hrefused j hjL).mp (husedAll j (by omega))
    have h2 : ∀ t ∈ ({ m with mList := ml2 }).tList,
        t.material < ({ m with mList := ml2 }).mList.length := by
      intro t ht
      have : t.material < m.mList.length := hval t ht
      show t.material < ml2.length
      omega
    have hmark2 : ∀ j : Nat, j < ({ m with mList := ml2 }).mList.length →
        (({ m with mList := ml2 }).mList.getD j Material.default).mark = (j : Int) := by
      intro j hj
      have hj2 : j < ml2.length := hj
      have hj1 : j < ml1.length := by omega
      show (ml2.getD j Material.default).mark = (j : Int)
      rw [hml2, assignMaterialMarks_getD ml1 0 j hj1, if_neg (husedAll j hj1)]
      have htake : (ml1.take j).countP (fun mat => mat.mark ≠ 0) = j :=
        countP_take_of_usedAll ml1 husedAll j (by omega)
      show ((0 + (ml1.take j).countP (fun mat => mat.mark ≠ 0) : Nat) : Int) = (j : Int)
      rw [htake]
      omega
    exact ⟨h1, h2, deleteUnusedMaterials_fixed _ h2 h1 hmark2⟩
  · rw [if_neg hc]
    have hflen : (ml2.filter (fun mat => mat.mark ≠ -1)).length
        = ml1.countP (fun mat => mat.mark ≠ 0) := by
      rw [hml2, assignFilter_length]
    have h2 : ∀ t1 ∈ (m.tList.map (fun t =>
          { t with material := ((ml2.getD t.material Material.default).mark).toNat })),
        t1.material < (ml2.filter (fun mat => mat.mark ≠ -1)).length := by
      intro t1 ht1
      obtain ⟨t, ht, rfl⟩ := List.mem_map.mp ht1
      have htm : t.material < m.mList.length := hval t ht
      have htm1 : t.material < ml1.length := by omega
      have hu : (ml1.getD t.material Material.default).mark ≠ 0 :=
        (hrefused t.material htm).mpr ⟨t, ht, rfl⟩
      have hlt := countP_take_lt ml1 t.material htm1 hu
      show ((ml2.getD t.material Material.default).mark).toNat
          < (ml2.filter (fun mat => mat.mark ≠ -1)).length
      rw [hflen, hml2, assignMaterialMarks_getD ml1 0 t.material htm1, if_neg hu]
      show ((0 + (ml1.take t.material).countP (fun mat => mat.mark ≠ 0) : Nat) : Int).toNat
          < ml1.countP (fun mat => mat.mark ≠ 0)
      omega
    have h1 : ∀ j, j < (ml2.filter (fun mat => mat.mark ≠ -1)).length →
        ∃ t1 ∈ (m.tList.map (fun t =>
            { t with material := ((ml2.getD t.material Material.default).mark).toNat })),
          t1.material = j := by
      intro j hj
      rw [hflen] at hj
      obtain ⟨i, hi1, hui, hcnti⟩ := existsUsedPos ml1 j hj
      have hiL : i < m.mList.length := by omega
      obtain ⟨t, ht, hti⟩ := (hrefused i hiL).mp hui
      refine ⟨{ t with material := ((ml2.getD t.material Material.default).mark).toNat },
        List.mem_map.mpr ⟨t, ht, rfl⟩, ?_⟩
      show ((ml2.getD t.material Material.default).mark).toNat = j
      rw [hti, hml2, assignMaterialMarks_getD ml1 0 i hi1, if_neg hui]
      show ((0 + (ml1.take i).countP (fun mat => mat.mark ≠ 0) : Nat) : Int).toNat = j
      omega
    have hmark2 : ∀ j : Nat, j < (ml2.filter (fun mat => mat.mark ≠ -1)).length →
        ((ml2.filter (fun mat => mat.mark ≠ -1)).getD j Material.default).mark
          = (j : Int) := by
      intro j hj
      rw [hflen] at hj
      rw [hml2, assignFilter_getD_mark ml1 0 j hj]
      omega
    exact ⟨h1, h2, deleteUnusedMaterials_fixed _ h2 h1 hmark2⟩

/-- C5 witness: the `deleteUnusedMaterials` property instantiated at the
concrete mesh `meshUnusedM` (two of its three materials are unused). -/
theorem deleteUnusedMaterials_spec_witness :
    (∀ j, j < meshUnusedM.deleteUnusedMaterials.mList.length →
        ∃ t ∈ meshUnusedM.deleteUnusedMaterials.tList, t.material = j) ∧
    (∀ t ∈ meshUnusedM.deleteUnusedMaterials.tList,
        t.material < meshUnusedM.deleteUnusedMaterials.mList.length) ∧
    meshUnusedM.deleteUnusedMaterials.deleteUnusedMaterials
      = meshUnusedM.deleteUnusedMaterials :=
  deleteUnusedMaterials_spec meshUnusedM (by decide)

/-! ### Helper lemmas for `extractParts` -/

/-- `getD` after `set` at the written index. -/
theorem getD_set_self {α : Type} (d : α) (l : List α) (i : Nat) (a : α)
    (hi : i < l.length) : (l.set i a).getD i d = a := by
  induction l generalizing i with
  | nil => simp at hi
  | cons x rest ih =>
    cases i with
    | zero => rfl
    | succ j =>
      have hj : j < rest.length := by simpa using hi
      simpa [List.set] using ih j hj

/-- `getD` after `set` at another index. -/
theorem getD_set_other {α : Type} (d : α) (l : List α) (i j : Nat) (a : α)
    (hne : j ≠ i) : (l.set i a).getD j d = l.getD j d := by
  induction l generalizing i j with
  | nil => rfl
  | cons x rest ih =>
    cases i with
    | zero =>
      cases j with
      | zero => exact absurd rfl hne
      | succ j1 => rfl
    | succ i1 =>
      cases j with
      | zero => rfl
      | succ j1 => simpa [List.set] using ih i1 j1 (fun h => hne (by omega))

/-- `getD` in the left part of an append. -/
theorem getD_append_lt {α : Type} (d : α) (l l2 : List α) (j : Nat)
    (hj : j < l.length) : (l ++ l2).getD j d = l.getD j d := by
  induction l generalizing j with
  | nil => simp at hj
  | cons x rest ih =>
    cases j with
    | zero => rfl
    | succ j1 =>
      have hj1 : j1 < rest.length := by simpa using hj
      simpa using ih j1 hj1

/-- `getD` at the first appended position. -/
theorem getD_append_len {α : Type} (d : α) (l : List α) (a : α) :
    (l ++ [a]).getD l.length d = a := by
  induction l with
  | nil => rfl
  | cons x rest ih => simp [ih]

/-- Behaviour of `remapMaterial` under the core invariant: the core is
preserved, only the destination material list grows (by at most the one
copied entry), and the returned index references a faithful copy of the
source material. -/
theorem remapMaterial_spec (m : EditTriMesh) (k : Nat) (st : ExtractState) (mi : Nat)
    (core : ExtractCore m k st) (hmi : mi < m.mList.length) :
    ExtractCore m k (remapMaterial st mi).1 ∧
    (remapMaterial st mi).1.vSrc = st.vSrc ∧
    (remapMaterial st mi).1.dest.vList = st.dest.vList ∧
    (remapMaterial st mi).1.dest.tList = st.dest.tList ∧
    (∀ jd, jd < st.dest.mList.length →
      (remapMaterial st mi).1.dest.mList.getD jd Material.default
        = st.dest.mList.getD jd Material.default) ∧
    st.dest.mList.length ≤ (remapMaterial st mi).1.dest.mList.length ∧
    (∀ jd, st.dest.mList.length ≤ jd →
      jd < (remapMaterial st mi).1.dest.mList.length → jd = (remapMaterial st mi).2) ∧
    (remapMaterial st mi).2 < (remapMaterial st mi).1.dest.mList.length ∧
    ((remapMaterial st mi).1.dest.mList.getD (remapMaterial st mi).2
        Material.default).diffuseTextureName
      = (m.mList.getD mi Material.default).diffuseTextureName := by
  have hmi2 : mi < st.mSrc.length := by rw [core.hmlen]; exact hmi
  by_cases h : (st.mSrc.getD mi Material.default).mark < 0
  · have hr : remapMaterial st mi =
        ({ st with
            mSrc := st.mSrc.set mi
              { st.mSrc.getD mi Material.default with
                mark := (st.dest.mList.length : Int) }
            dest := { st.dest with
              mList := st.dest.mList ++ [st.mSrc.getD mi Material.default] } },
          st.dest.mList.length) := by
      simp only [remapMaterial]
      rw [if_pos h]
    rw [hr]
    refine ⟨⟨core.hvlen, ?_, core.hvdata, ?_, ?_, ?_, core.hpl⟩, rfl, rfl, rfl,
      ?_, ?_, ?_, ?_, ?_⟩
    · show (st.mSrc.set mi _).length = m.mList.length
      rw [List.length_set, core.hmlen]
    · intro i hi
      by_cases hemi : i = mi
      · subst hemi
        show ((st.mSrc.set i _).getD i Material.default).diffuseTextureName = _
        rw [getD_set_self Material.default st.mSrc i _ hmi2]
        exact core.hmdata i hi
      · show ((st.mSrc.set mi _).getD i Material.default).diffuseTextureName = _
        rw [getD_set_other Material.default st.mSrc mi i _ hemi]
        exact core.hmdata i hi
    · intro i hi hnn
      exact core.hvmark i hi hnn
    · intro i hi hnn
      by_cases hemi : i = mi
      · subst hemi
        rw [getD_set_self Material.default st.mSrc i _ hmi2] at hnn ⊢
        show (st.dest.mList.length : Int).toNat < (st.dest.mList ++ [_]).length ∧ _
        constructor
        · simp
        · rw [show ((st.dest.mList.length : Int)).toNat = st.dest.mList.length from by simp,
            getD_append_len]
          exact core.hmdata i hi
      · rw [getD_set_other Material.default st.mSrc mi i _ hemi] at hnn ⊢
        obtain ⟨hlt, hname⟩ := core.hmmark i hi hnn
        constructor
        · show _ < (st.dest.mList ++ [_]).length
          simp only [List.length_append, List.length_singleton]
          omega
        · rw [getD_append_lt Material.default st.dest.mList _ _ hlt]
          exact hname
    · intro jd hjd
      exact getD_append_lt Material.default st.dest.mList _ jd hjd
    · show st.dest.mList.length ≤ (st.dest.mList ++ [_]).length
      simp
    · intro jd h1 h2
      show jd = st.dest.mList.length
      simp only [List.length_append, List.length_singleton] at h2
      omega
    · show st.dest.mList.length < (st.dest.mList ++ [_]).length
      simp
    · show ((st.dest.mList ++ [_]).getD st.dest.mList.length
          Material.default).diffuseTextureName = _
      rw [getD_append_len]
      exact core.hmdata mi hmi
  · have hr : remapMaterial st mi =
        (st, (st.mSrc.getD mi Material.default).mark.toNat) := by
      simp only [remapMaterial]
      rw [if_neg h]
    rw [hr]
    obtain ⟨hlt, hname⟩ := core.hmmark mi hmi (by omega)
    exact ⟨core, rfl, rfl, rfl, fun jd hjd => rfl, le_refl _,
      fun jd h1 h2 => by
        have h3 : jd < st.dest.mList.length := h2
        omega,
      hlt, hname⟩

/-- Behaviour of `remapCorner` under the core invariant: the core is
preserved, only the destination vertex list grows (by at most the one
copied entry), the returned corner keeps its UV and references a
faithful copy of the source corner's vertex. -/
theorem remapCorner_spec (m : EditTriMesh) (k : Nat) (st : ExtractState) (w : Vert)
    (core : ExtractCore m k st) (hwi : w.index < m.vList.length) :
    ExtractCore m k (remapCorner st w).1 ∧
    (remapCorner st w).1.mSrc = st.mSrc ∧
    (remapCorner st w).1.dest.mList = st.dest.mList ∧
    (remapCorner st w).1.dest.tList = st.dest.tList ∧
    (∀ jd, jd < st.dest.vList.length →
      (remapCorner st w).1.dest.vList.getD jd Vertex.default
        = st.dest.vList.getD jd Vertex.default) ∧
    st.dest.vList.length ≤ (remapCorner st w).1.dest.vList.length ∧
    (∀ jd, st.dest.vList.length ≤ jd →
      jd < (remapCorner st w).1.dest.vList.length → jd = (remapCorner st w).2.index) ∧
    (remapCorner st w).2.index < (remapCorner st w).1.dest.vList.length ∧
    VertexDataEq ((remapCorner st w).1.dest.vList.getD (remapCorner st w).2.index
        Vertex.default)
      (m.vList.getD w.index Vertex.default) ∧
    (remapCorner st w).2.u = w.u ∧ (remapCorner st w).2.v = w.v := by
  have hwi2 : w.index < st.vSrc.length := by rw [core.hvlen]; exact hwi
  by_cases h : (st.vSrc.getD w.index Vertex.default).mark < 0
  · have hr : remapCorner st w =
        ({ st with
            vSrc := st.vSrc.set w.index
              { st.vSrc.getD w.index Vertex.default with
                mark := (st.dest.vList.length : Int) }
            dest := { st.dest with
              vList := st.dest.vList ++ [st.vSrc.getD w.index Vertex.default] } },
          { w with index := st.dest.vList.length }) := by
      simp only [remapCorner]
      rw [if_pos h]
    rw [hr]
    refine ⟨⟨?_, core.hmlen, ?_, core.hmdata, ?_, ?_, core.hpl⟩, rfl, rfl, rfl,
      ?_, ?_, ?_, ?_, ?_, rfl, rfl⟩
    · show (st.vSrc.set w.index _).length = m.vList.length
      rw [List.length_set, core.hvlen]
    · intro i hi
      by_cases hew : i = w.index
      · rw [hew]
        show VertexDataEq ((st.vSrc.set w.index _).getD w.index Vertex.default) _
        rw [getD_set_self Vertex.default st.vSrc w.index _ hwi2]
        exact core.hvdata w.index hwi
      · show VertexDataEq ((st.vSrc.set w.index _).getD i Vertex.default) _
        rw [getD_set_other Vertex.default st.vSrc w.index i _ hew]
        exact core.hvdata i hi
    · intro i hi hnn
      by_cases hew : i = w.index
      · rw [hew] at hnn ⊢
        rw [getD_set_self Vertex.default st.vSrc w.index _ hwi2] at hnn ⊢
        constructor
        · show (st.dest.vList.length : Int).toNat < (st.dest.vList ++ [_]).length
          simp
        · rw [show ((st.dest.vList.length : Int)).toNat = st.dest.vList.length from by simp,
            getD_append_len]
          exact core.hvdata w.index hwi
      · rw [getD_set_other Vertex.default st.vSrc w.index i _ hew] at hnn ⊢
        obtain ⟨hlt, hdat⟩ := core.hvmark i hi hnn
        constructor
        · show _ < (st.dest.vList ++ [_]).length
          simp only [List.length_append, List.length_singleton]
          omega
        · rw [getD_append_lt Vertex.default st.dest.vList _ _ hlt]
          exact hdat
    · intro i hi hnn
      exact core.hmmark i hi hnn
    · intro jd hjd
      exact getD_append_lt Vertex.default st.dest.vList _ jd hjd
    · show st.dest.vList.length ≤ (st.dest.vList ++ [_]).length
      simp
    · intro jd h1 h2
      show jd = ({ w with index := st.dest.vList.length } : Vert).index
      simp only [List.length_append, List.length_singleton] at h2
      show jd = st.dest.vList.length
      omega
    · show st.dest.vList.length < (st.dest.vList ++ [_]).length
      simp
    · show VertexDataEq ((st.dest.vList ++ [_]).getD st.dest.vList.length Vertex.default) _
      rw [getD_append_len]
      exact core.hvdata w.index hwi
  · have hr : remapCorner st w =
        (st, { w with index := (st.vSrc.getD w.index Vertex.default).mark.toNat }) := by
      simp only [remapCorner]
      rw [if_neg h]
    rw [hr]
    obtain ⟨hlt, hdat⟩ := core.hvmark w.index hwi (by omega)
    exact ⟨core, rfl, rfl, rfl, fun jd hjd => rfl, le_refl _,
      fun jd h1 h2 => by
        have h3 : jd < st.dest.vList.length := h2
        omega,
      hlt, hdat, rfl, rfl⟩

/-- `TriMatch` is stable under growing the destination lists (existing
entries unchanged). -/
theorem TriMatch_mono (m d d2 : EditTriMesh) (t t1 : Tri)
    (hm : TriMatch m d t t1)
    (hvlen : d.vList.length ≤ d2.vList.length)
    (hmlen : d.mList.length ≤ d2.mList.length)
    (hvstable : ∀ jd, jd < d.vList.length →
      d2.vList.getD jd Vertex.default = d.vList.getD jd Vertex.default)
    (hmstable : ∀ jd, jd < d.mList.length →
      d2.mList.getD jd Material.default = d.mList.getD jd Material.default) :
    TriMatch m d2 t t1 := by
  obtain ⟨hp, hn, hmk, hu0, hv0, hu1, hv1, hu2, hv2, hmat, hname,
    hi0, hd0, hi1, hd1, hi2, hd2⟩ := hm
  exact ⟨hp, hn, hmk, hu0, hv0, hu1, hv1, hu2, hv2, by omega,
    by rw [hmstable _ hmat]; exact hname,
    by omega, by rw [hvstable _ hi0]; exact hd0,
    by omega, by rw [hvstable _ hi1]; exact hd1,
    by omega, by rw [hvstable _ hi2]; exact hd2⟩

/-- One step of the extraction scan preserves the invariant. -/
theorem extractTriStep_inv (m : EditTriMesh) (k : Nat) (processed : List Tri) (t : Tri)
    (st : ExtractState)
    (hval : t.part = k → (t.v0.index < m.vList.length ∧ t.v1.index < m.vList.length ∧
      t.v2.index < m.vList.length ∧ t.material < m.mList.length))
    (inv : ExtractInv m k processed st) :
    ExtractInv m k (processed ++ [t]) (extractTriStep k st t) := by
  by_cases hpk : t.part = k
  · obtain ⟨hv0, hv1, hv2, hmat⟩ := hval hpk
    have hs : extractTriStep k st t =
        { (remapCorner (remapCorner (remapCorner (remapMaterial st t.material).1
              t.v0).1 t.v1).1 t.v2).1 with
          dest := { (remapCorner (remapCorner (remapCorner (remapMaterial st
              t.material).1 t.v0).1 t.v1).1 t.v2).1.dest with
            tList := (remapCorner (remapCorner (remapCorner (remapMaterial st
                t.material).1 t.v0).1 t.v1).1 t.v2).1.dest.tList ++
              [{ t with
                  material := (remapMaterial st t.material).2
                  v0 := (remapCorner (remapMaterial st t.material).1 t.v0).2
                  v1 := (remapCorner (remapCorner (remapMaterial st t.material).1
                    t.v0).1 t.v1).2
                  v2 := (remapCorner (remapCorner (remapCorner (remapMaterial st
                    t.material).1 t.v0).1 t.v1).1 t.v2).2
                  part := 0 }] } } := by
      simp only [extractTriStep]
      rw [if_neg (by simp [hpk])]
    rw [hs]
    obtain ⟨core1, hveq1, hdvA, hdtA, hmstableA, hmlenA, hmnewA, hnmlt, hnmname⟩ :=
      remapMaterial_spec m k st t.material inv.core hmat
    obtain ⟨core2, hmsB, hdmB, hdtB, hvstableB, hvlenB, hvnewB, hw0lt, hw0dat, hw0u, hw0v⟩ :=
      remapCorner_spec m k (remapMaterial st t.material).1 t.v0 core1 hv0
    obtain ⟨core3, hmsC, hdmC, hdtC, hvstableC, hvlenC, hvnewC, hw1lt, hw1dat, hw1u, hw1v⟩ :=
      remapCorner_spec m k (remapCorner (remapMaterial st t.material).1 t.v0).1
        t.v1 core2 hv1
    obtain ⟨core4, hmsD, hdmD, hdtD, hvstableD, hvlenD, hvnewD, hw2lt, hw2dat, hw2u, hw2v⟩ :=
      remapCorner_spec m k (remapCorner (remapCorner (remapMaterial st t.material).1
        t.v0).1 t.v1).1 t.v2 core3 hv2
    set st1 := (remapMaterial st t.material).1 with hst1
    set nm := (remapMaterial st t.material).2 with hnm
    set st2 := (remapCorner st1 t.v0).1 with hst2
    set w0 := (remapCorner st1 t.v0).2 with hw0
    set st3 := (remapCorner st2 t.v1).1 with hst3
    set w1 := (remapCorner st2 t.v1).2 with hw1
    set st4 := (remapCorner st3 t.v2).1 with hst4
    set w2 := (remapCorner st3 t.v2).2 with hw2
    -- composite transport facts
    have hveq01 : st1.dest.vList = st.dest.vList := hdvA
    have hv04len : st.dest.vList.length ≤ st4.dest.vList.length := by
      rw [← hveq01]; omega
    have hv04stable : ∀ jd, jd < st.dest.vList.length →
        st4.dest.vList.getD jd Vertex.default = st.dest.vList.getD jd Vertex.default := by
      intro jd hjd
      have hjd1 : jd < st1.dest.vList.length := by rw [hveq01]; exact hjd
      have hjd2 : jd < st2.dest.vList.length := by omega
      have hjd3 : jd < st3.dest.vList.length := by omega
      rw [hvstableD jd hjd3, hvstableC jd hjd2, hvstableB jd hjd1, hveq01]
    have hm14 : st4.dest.mList = st1.dest.mList := by rw [hdmD, hdmC, hdmB]
    have hm04len : st.dest.mList.length ≤ st4.dest.mList.length := by
      rw [hm14]; exact hmlenA
    have hm04stable : ∀ jd, jd < st.dest.mList.length →
        st4.dest.mList.getD jd Material.default
          = st.dest.mList.getD jd Material.default := by
      intro jd hjd
      rw [hm14]
      exact hmstableA jd hjd
    have ht04 : st4.dest.tList = st.dest.tList := by rw [hdtD, hdtC, hdtB, hdtA]
    set t1 := { t with material := nm, v0 := w0, v1 := w1, v2 := w2, part := 0 } with ht1d
    -- the appended triangle
    have htm : TriMatch m { st4.dest with tList := st4.dest.tList ++ [t1] } t t1 := by
      refine ⟨rfl, rfl, rfl, hw0u, hw0v, hw1u, hw1v, hw2u, hw2v, ?_, ?_, ?_, ?_, ?_, ?_, ?_, ?_⟩
      · show nm < st4.dest.mList.length
        rw [hm14]; exact hnmlt
      · show (st4.dest.mList.getD nm Material.default).diffuseTextureName = _
        rw [hm14]; exact hnmname
      · show w0.index < st4.dest.vList.length
        omega
      · show VertexDataEq (st4.dest.vList.getD w0.index Vertex.default) _
        have h2 : w0.index < st2.dest.vList.length := hw0lt
        have h3 : w0.index < st3.dest.vList.length := by omega
        rw [hvstableD _ h3, hvstableC _ h2]
        exact hw0dat
      · show w1.index < st4.dest.vList.length
        omega
      · show VertexDataEq (st4.dest.vList.getD w1.index Vertex.default) _
        have h3 : w1.index < st3.dest.vList.length := hw1lt
        rw [hvstableD _ h3]
        exact hw1dat
      · show w2.index < st4.dest.vList.length
        exact hw2lt
      · exact hw2dat
    refine ⟨⟨core4.hvlen, core4.hmlen, core4.hvdata, core4.hmdata, core4.hvmark,
      core4.hmmark, core4.hpl⟩, ?_, ?_, ?_⟩
    · -- triangle correspondence
      show List.Forall₂ _ ((processed ++ [t]).filter (fun t2 => t2.part = k))
        (st4.dest.tList ++ [t1])
      have hfl : ([t].filter (fun t2 => t2.part = k)) = [t] := by
        rw [List.filter_cons_of_pos]
        · rfl
        · exact decide_eq_true hpk
      rw [List.filter_append, hfl, ht04]
      refine List.rel_append ?_ (List.Forall₂.cons htm List.Forall₂.nil)
      refine List.Forall₂.imp ?_ inv.htris
      intro a b hab
      exact TriMatch_mono m st.dest _ a b hab hv04len hm04len hv04stable hm04stable
    · -- every destination vertex is referenced
      intro i hi
      have hi4 : i < st4.dest.vList.length := hi
      by_cases hio : i < st.dest.vList.length
      · obtain ⟨t2, ht2mem, ht2ref⟩ := inv.hvref i hio
        refine ⟨t2, ?_, ht2ref⟩
        show t2 ∈ st4.dest.tList ++ _
        rw [ht04]
        exact List.mem_append_left _ ht2mem
      · have hge : st.dest.vList.length ≤ i := by omega
        have hge1 : st1.dest.vList.length ≤ i := by rw [hveq01]; exact hge
        refine ⟨t1, List.mem_append_right _ (List.mem_singleton.mpr rfl), ?_⟩
        by_cases hi2 : i < st2.dest.vList.length
        · exact Or.inl (hvnewB i hge1 hi2).symm
        · by_cases hi3 : i < st3.dest.vList.length
          · exact Or.inr (Or.inl (hvnewC i (by omega) hi3).symm)
          · exact Or.inr (Or.inr (hvnewD i (by omega) hi4).symm)
    · -- every destination material is referenced
      intro j hj
      have hj4 : j < st4.dest.mList.length := hj
      have hj1 : j < st1.dest.mList.length := by rw [← hm14]; exact hj4
      by_cases hjo : j < st.dest.mList.length
      · obtain ⟨t2, ht2mem, ht2ref⟩ := inv.hmref j hjo
        refine ⟨t2, ?_, ht2ref⟩
        show t2 ∈ st4.dest.tList ++ _
        rw [ht04]
        exact List.mem_append_left _ ht2mem
      · refine ⟨t1, List.mem_append_right _ (List.mem_singleton.mpr rfl), ?_⟩
        show t1.material = j
        exact (hmnewA j (by omega) hj1).symm
  · have hs : extractTriStep k st t = st := by
      simp only [extractTriStep]
      rw [if_pos hpk]
    rw [hs]
    have hfilt : (processed ++ [t]).filter (fun t2 => t2.part = k)
        = processed.filter (fun t2 => t2.part = k) := by
      have hfl : ([t].filter (fun t2 => t2.part = k)) = [] := by
        rw [List.filter_cons_of_neg]
        · rfl
        · simp [hpk]
      rw [List.filter_append, hfl, List.append_nil]
    refine ⟨inv.core, ?_, inv.hvref, inv.hmref⟩
    rw [hfilt]
    exact inv.htris

/-- The extraction scan preserves the invariant across a whole
triangle list. -/
theorem extractFold_inv (m : EditTriMesh) (k : Nat) :
    ∀ (rest processed : List Tri) (st : ExtractState),
    (∀ t ∈ rest, t.part = k → (t.v0.index < m.vList.length ∧
      t.v1.index < m.vList.length ∧ t.v2.index < m.vList.length ∧
      t.material < m.mList.length)) →
    ExtractInv m k processed st →
    ExtractInv m k (processed ++ rest) (extractFold k st rest) := by
  intro rest
  induction rest with
  | nil =>
    intro processed st hval inv
    rw [List.append_nil]
    exact inv
  | cons t rest ih =>
    intro processed st hval inv
    have hstep := extractTriStep_inv m k processed t st
      (hval t (List.mem_cons_self t rest)) inv
    have hrec := ih (processed ++ [t]) (extractTriStep k st t)
      (fun t2 ht2 => hval t2 (List.mem_cons_of_mem t ht2)) hstep
    have h2 : (processed ++ [t]) ++ rest = processed ++ (t :: rest) := by
      rw [List.append_assoc, List.singleton_append]
    rw [h2] at hrec
    exact hrec

/-- Pointwise form of the sentinel-mark initialization on vertices. -/
theorem map_markm1_getD_v (vl : List Vertex) (j : Nat) (hj : j < vl.length) :
    (vl.map (fun v => { v with mark := -1 })).getD j Vertex.default
      = { vl.getD j Vertex.default with mark := -1 } := by
  induction vl generalizing j with
  | nil => simp at hj
  | cons v rest ih =>
    cases j with
    | zero => simp
    | succ j1 =>
      have hj1 : j1 < rest.length := by simpa using hj
      simpa using ih j1 hj1

/-- Pointwise form of the sentinel-mark initialization on materials. -/
theorem map_markm1_getD_m (ml : List Material) (j : Nat) (hj : j < ml.length) :
    (ml.map (fun mat => { mat with mark := -1 })).getD j Material.default
      = { ml.getD j Material.default with mark := -1 } := by
  induction ml generalizing j with
  | nil => simp at hj
  | cons mat rest ih =>
    cases j with
    | zero => simp
    | succ j1 =>
      have hj1 : j1 < rest.length := by simpa using hj
      simpa using ih j1 hj1

/-- The initial extraction state satisfies the invariant. -/
theorem extractInit_inv (m : EditTriMesh) (k : Nat) :
    ExtractInv m k []
      { vSrc := m.vList.map (fun v => { v with mark := -1 })
        mSrc := m.mList.map (fun mat => { mat with mark := -1 })
        dest := { vList := [], tList := [], mList := []
                  pList := [m.pList.getD k Part.default] } } := by
  refine ⟨⟨?_, ?_, ?_, ?_, ?_, ?_, rfl⟩, ?_, ?_, ?_⟩
  · simp
  · simp
  · intro i hi
    show VertexDataEq ((m.vList.map (fun v => { v with mark := -1 })).getD i
      Vertex.default) _
    rw [map_markm1_getD_v m.vList i hi]
    exact ⟨rfl, rfl, rfl, rfl⟩
  · intro i hi
    show ((m.mList.map (fun mat => { mat with mark := -1 })).getD i
      Material.default).diffuseTextureName = _
    rw [map_markm1_getD_m m.mList i hi]
  · intro i hi hnn
    rw [map_markm1_getD_v m.vList i hi] at hnn
    have hcontra : (0 : Int) ≤ -1 := hnn
    omega
  · intro i hi hnn
    rw [map_markm1_getD_m m.mList i hi] at hnn
    have hcontra : (0 : Int) ≤ -1 := hnn
    omega
  · exact List.Forall₂.nil
  · intro i hi
    simp at hi
  · intro j hj
    simp at hj

/-- C1 (modelled from the spec, the Rust `extractParts` body being an
empty stub): for every mesh with at least one part and valid triangle
indices, `extractParts` produces one mesh per part; mesh `k` holds
exactly one part (part `k` of the source), its triangle list corresponds
one-to-one and in order to the source triangles of part `k` (part
slammed to 0, UVs/normal/mark preserved, material and corner indices
remapped to faithful copies), and its vertex and material lists are
trimmed: every entry is referenced by some triangle of the extracted
mesh. -/
theorem extractParts_spec (m : EditTriMesh)
    (hN : 1 ≤ m.pList.length)
    (hv : ∀ t ∈ m.tList, t.v0.index < m.vList.length ∧ t.v1.index < m.vList.length ∧
      t.v2.index < m.vList.length ∧ t.material < m.mList.length) :
    m.extractParts.length = m.pList.length ∧
    ∀ k, k < m.pList.length →
      (m.extractParts.getD k EditTriMesh.emptyMesh).pList
          = [m.pList.getD k Part.default] ∧
      List.Forall₂ (TriMatch m (m.extractParts.getD k EditTriMesh.emptyMesh))
        (m.tList.filter (fun t => t.part = k))
        (m.extractParts.getD k EditTriMesh.emptyMesh).tList ∧
      (∀ i, i < (m.extractParts.getD k EditTriMesh.emptyMesh).vList.length →
        ∃ t1 ∈ (m.extractParts.getD k EditTriMesh.emptyMesh).tList,
          t1.v0.index = i ∨ t1.v1.index = i ∨ t1.v2.index = i) ∧
      (∀ j, j < (m.extractParts.getD k EditTriMesh.emptyMesh).mList.length →
        ∃ t1 ∈ (m.extractParts.getD k EditTriMesh.emptyMesh).tList,
          t1.material = j) := by
  have hgetD : ∀ k, k < m.pList.length →
      m.extractParts.getD k EditTriMesh.emptyMesh = m.extractOnePart k := by
    intro k hk
    rw [EditTriMesh.extractParts]
    have hk2 : k < ((List.range m.pList.length).map m.extractOnePart).length := by
      simpa using hk
    rw [List.getD_eq_getElem _ _ hk2]
    simp
  constructor
  · rw [EditTriMesh.extractParts]
    simp
  · intro k hk
    rw [hgetD k hk]
    have hinv := extractFold_inv m k m.tList []
      { vSrc := m.vList.map (fun v => { v with mark := -1 })
        mSrc := m.mList.map (fun mat => { mat with mark := -1 })
        dest := { vList := [], tList := [], mList := []
                  pList := [m.pList.getD k Part.default] } }
      (fun t ht _ => hv t ht) (extractInit_inv m k)
    rw [List.nil_append] at hinv
    exact ⟨hinv.core.hpl, hinv.htris, hinv.hvref, hinv.hmref⟩

/-- C1 witness: the `extractParts` property instantiated at the concrete
two-part mesh `meshExtract`. -/
theorem extractParts_spec_witness :
    meshExtract.extractParts.length = meshExtract.pList.length ∧
    ∀ k, k < meshExtract.pList.length →
      (meshExtract.extractParts.getD k EditTriMesh.emptyMesh).pList
          = [meshExtract.pList.getD k Part.default] ∧
      List.Forall₂ (TriMatch meshExtract
          (meshExtract.extractParts.getD k EditTriMesh.emptyMesh))
        (meshExtract.tList.filter (fun t => t.part = k))
        (meshExtract.extractParts.getD k EditTriMesh.emptyMesh).tList ∧
      (∀ i, i < (meshExtract.extractParts.getD k EditTriMesh.emptyMesh).vList.length →
        ∃ t1 ∈ (meshExtract.extractParts.getD k EditTriMesh.emptyMesh).tList,
          t1.v0.index = i ∨ t1.v1.index = i ∨ t1.v2.index = i) ∧
      (∀ j, j < (meshExtract.extractParts.getD k EditTriMesh.emptyMesh).mList.length →
        ∃ t1 ∈ (meshExtract.extractParts.getD k EditTriMesh.emptyMesh).tList,
          t1.material = j) :=
  extractParts_spec meshExtract (by decide) (by decide)

end Rockfish
